import Mathlib

/-!
# Verification of the GeniSpace enterprise document operators

A shallow embedding, over `List Char`, of the document operators of the
repository (PDF / Word / Markdown generation, text extraction and its
Express route), together with proofs of the specification claims.

Strings from the JavaScript source are modelled as `List Char`; JavaScript
runtime values that the validation code inspects are modelled by `JSVal`;
every I/O interaction (clock, uuid, HTTP download, storage upload, stat,
unlink) is an explicit oracle in an environment record, so that each
operator becomes a pure function of its request and its environment.
-/

namespace GenisOps

/-- Strings of the embedded program. -/
abbrev Str := List Char

/-- View a Lean string literal as an embedded string. -/
def s2l (s : String) : Str := s.data

/-- ASCII lower-casing, the case folding performed by the `i` flag of the
JavaScript regexes in the source (all of which are ASCII patterns). -/
def lowerAscii (c : Char) : Char :=
  if 65 ≤ c.toNat ∧ c.toNat ≤ 90 then Char.ofNat (c.toNat + 32) else c

/-- Case-insensitive character comparison (JS regex `i` flag). -/
def ciEq (a b : Char) : Bool := lowerAscii a = lowerAscii b

/-- Match `pat` (case-insensitively) as a prefix of `s`; return the rest. -/
def matchLitCi : Str → Str → Option Str
  | [], s => some s
  | _ :: _, [] => none
  | p :: ps, c :: cs => if ciEq p c then matchLitCi ps cs else none

/-- Match `pat` exactly as a prefix of `s`; return the rest. -/
def matchLitEx : Str → Str → Option Str
  | [], s => some s
  | _ :: _, [] => none
  | p :: ps, c :: cs => if p = c then matchLitEx ps cs else none

/-- `sub.isSome`-style Boolean: does `s` start with `pat` (exactly)?
Models JS `String.prototype.startsWith`. -/
def startsW (pat s : Str) : Bool := (matchLitEx pat s).isSome

/-- Does `s` contain `pat` as a contiguous substring (exact match)?
Models JS `String.prototype.includes`. -/
def hasSub (pat : Str) : Str → Bool
  | [] => (matchLitEx pat []).isSome
  | c :: cs => (matchLitEx pat (c :: cs)).isSome || hasSub pat cs

/-- Does `s` end with `pat`?  Models JS `String.prototype.endsWith`. -/
def endsW (pat s : Str) : Bool := startsW pat.reverse s.reverse

/-- JS `\s` (the whitespace class used by `/\s+$/`). -/
def jsIsSpace (c : Char) : Bool :=
  c = ' ' || c = '\t' || c = '\n' || c = '\r' || c = '\x0b' || c = '\x0c' ||
  c = ' ' || c = ' ' || (0x2000 ≤ c.toNat && c.toNat ≤ 0x200a) ||
  c = ' ' || c = ' ' || c = ' ' || c = ' ' ||
  c = '　' || c = '﻿'

/-- Strip trailing JS whitespace: `line.replace(/\s+$/g, '')`. -/
def rstripJs (l : Str) : Str := (l.reverse.dropWhile jsIsSpace).reverse

/-- Split on `'\n'`: JS `content.split('\n')`. -/
def splitOnNl : Str → List Str
  | [] => [[]]
  | '\n' :: cs => [] :: splitOnNl cs
  | c :: cs =>
    match splitOnNl cs with
    | [] => [[c]]
    | l :: ls => (c :: l) :: ls

/-- Join with `'\n'`: JS `lines.join('\n')`. -/
def joinNl : List Str → Str
  | [] => []
  | [l] => l
  | l :: ls => l ++ '\n' :: joinNl ls

/-- `content.replace(/\r\n/g, '\n')`. -/
def replCRLF : Str → Str
  | [] => []
  | '\r' :: '\n' :: rest => '\n' :: replCRLF rest
  | c :: rest => c :: replCRLF rest

/-- `content.replace(/\r/g, '\n')` (a character-wise map). -/
def replCR (l : Str) : Str := l.map (fun c => if c = '\r' then '\n' else c)

/-- `content.replace(/\n/g, lineEnding)`. -/
def replNlWith (le : Str) : Str → Str
  | [] => []
  | '\n' :: rest => le ++ replNlWith le rest
  | c :: rest => c :: replNlWith le rest

/-- JavaScript runtime values, at the granularity the validation code of the
operators inspects them (`typeof`, `Array.isArray`, truthiness, string). -/
inductive JSVal where
  | null
  | undef
  | str (s : Str)
  | num (n : Int)
  | bool (b : Bool)
  | arr
  | obj
  deriving DecidableEq

/-- JS truthiness of a `JSVal`. -/
def jsTruthy : JSVal → Bool
  | .null => false
  | .undef => false
  | .str s => !s.isEmpty
  | .num n => n ≠ 0
  | .bool b => b
  | .arr => true
  | .obj => true

/-- JS `typeof` of a `JSVal` (note `typeof null === 'object'`). -/
def jsTypeof : JSVal → Str
  | .null => s2l "object"
  | .undef => s2l "undefined"
  | .str _ => s2l "string"
  | .num _ => s2l "number"
  | .bool _ => s2l "boolean"
  | .arr => s2l "object"
  | .obj => s2l "object"

/-- JS `Array.isArray`. -/
def jsIsArray : JSVal → Bool
  | .arr => true
  | _ => false

/-- `a || b` on optional strings with JS falsiness (`undefined` and the
empty string are falsy). -/
def jsOrStr (a b : Option Str) : Option Str :=
  match a with
  | some s => if s.isEmpty then b else some s
  | none => b

/-! ## MarkdownGenerator: markdown text processing

Embedded from `MarkdownGenerator.js` (`processLineEndings`,
`normalizeLineEndings`, `processMarkdown`, `getLineCount`). -/

/-- `MarkdownGenerator.processLineEndings`: normalise to LF, then convert
LF to the requested line ending. -/
def processLineEndings (content le : Str) : Str :=
  replNlWith le (replCR (replCRLF content))

/-- `MarkdownGenerator.normalizeLineEndings`: CRLF and CR both become LF. -/
def normalizeLineEndings (content : Str) : Str :=
  replCR (replCRLF content)

/-- The `defaultMarkdownOptions` / `defaultOptions` flags of
`MarkdownGenerator`'s config that `processMarkdown` consults. -/
structure MdProcCfg where
  trimTrailingWhitespace : Bool
  normalizeLineEndings : Bool
  ensureTrailingNewline : Bool
  deriving DecidableEq

/-- The constructor defaults of `MarkdownGenerator` (all three flags on). -/
def mdDefaultCfg : MdProcCfg := ⟨true, true, true⟩

/-- `MarkdownGenerator.processMarkdown`: line-ending conversion, trailing
whitespace trimming, trailing newline, final LF normalisation. -/
def processMarkdown (cfg : MdProcCfg) (markdown le : Str) : Str :=
  let p1 := processLineEndings markdown le
  let p2 := if cfg.trimTrailingWhitespace then joinNl ((splitOnNl p1).map rstripJs) else p1
  let p3 := if cfg.ensureTrailingNewline && !(endsW le p2) then p2 ++ le else p2
  if cfg.normalizeLineEndings then normalizeLineEndings p3 else p3

/-- `MarkdownGenerator.getLineCount`: `content.split('\n').length`. -/
def getLineCount (content : Str) : Nat :=
  if content.isEmpty then 0 else (splitOnNl content).length

/-! ### Basic lemmas about the string primitives -/

theorem matchLitEx_iff (p : Str) : ∀ s r, matchLitEx p s = some r ↔ s = p ++ r := by
  induction p with
  | nil =>
    intro s r; simp only [matchLitEx, List.nil_append, Option.some.injEq]
  | cons x xs ih =>
    intro s r
    cases s with
    | nil => simp [matchLitEx]
    | cons c cs =>
      by_cases h : x = c
      · subst h; simp [matchLitEx, ih]
      · constructor
        · intro hc; rw [matchLitEx, if_neg h] at hc; cases hc
        · intro hc
          rw [List.cons_append] at hc
          injection hc with h1 _
          exact absurd h1.symm h

theorem matchLitEx_self_append (p r : Str) : matchLitEx p (p ++ r) = some r := by
  rw [matchLitEx_iff]

theorem endsW_append_self (le x : Str) : endsW le (x ++ le) = true := by
  unfold endsW startsW
  rw [List.reverse_append, matchLitEx_self_append]
  rfl

theorem endsW_getLast (le s : Str) (hne : le ≠ []) (h : endsW le s = true) :
    s.getLast? = le.getLast? := by
  unfold endsW startsW at h
  cases hm : matchLitEx le.reverse s.reverse with
  | none => rw [hm] at h; simp [Option.isSome] at h
  | some r =>
    rw [matchLitEx_iff] at hm
    have hs : s = r.reverse ++ le := by
      have := congrArg List.reverse hm
      simpa using this
    subst hs
    rw [List.getLast?_append]
    cases hle : le.getLast? with
    | none => exact absurd (List.getLast?_eq_none_iff.mp hle) hne
    | some c => rfl

theorem replCR_no_cr (l : Str) : '\r' ∉ replCR l := by
  intro h
  unfold replCR at h
  rcases List.mem_map.mp h with ⟨x, _, hx⟩
  by_cases hxr : x = '\r' <;> simp [hxr] at hx

theorem replCR_getLast (l : Str) :
    (replCR l).getLast? = l.getLast?.map (fun c => if c = '\r' then '\n' else c) := by
  unfold replCR
  exact List.getLast?_map _ l

theorem replCRLF_crlf (rest : Str) : replCRLF ('\r' :: '\n' :: rest) = '\n' :: replCRLF rest := rfl

theorem replCRLF_cons (c : Char) (rest : Str)
    (h : ∀ as, ¬(c = '\r' ∧ rest = '\n' :: as)) :
    replCRLF (c :: rest) = c :: replCRLF rest := by
  rw [replCRLF.eq_def]
  split
  · rename_i heq; cases heq
  · rename_i as heq
    injection heq with e1 e2
    exact absurd ⟨e1, e2⟩ (h as)
  · rename_i hno heq
    injection heq with e1 e2
    rw [← e1, ← e2]

theorem replCRLF_ne_nil (l : Str) (h : l ≠ []) : replCRLF l ≠ [] := by
  induction l using replCRLF.induct with
  | case1 => exact absurd rfl h
  | case2 rest ih => rw [replCRLF_crlf]; simp
  | case3 c rest hcr ih =>
    rw [replCRLF_cons c rest (fun as hc => hcr as hc.1 hc.2)]
    simp

theorem replCRLF_getLast (l : Str) : (replCRLF l).getLast? = l.getLast? := by
  induction l using replCRLF.induct with
  | case1 => rfl
  | case2 rest ih =>
    rw [replCRLF_crlf]
    cases hr : rest with
    | nil => rfl
    | cons a as =>
      have hne : replCRLF (a :: as) ≠ [] := replCRLF_ne_nil _ (by simp)
      cases hrc : replCRLF (a :: as) with
      | nil => exact absurd hrc hne
      | cons b bs =>
        rw [hr] at ih
        simp only [List.getLast?_cons_cons]
        rw [← hrc]
        exact ih
  | case3 c rest hcr ih =>
    rw [replCRLF_cons c rest (fun as hc => hcr as hc.1 hc.2)]
    cases hr : rest with
    | nil => rfl
    | cons a as =>
      have hne : replCRLF (a :: as) ≠ [] := replCRLF_ne_nil _ (by simp)
      cases hrc : replCRLF (a :: as) with
      | nil => exact absurd hrc hne
      | cons b bs =>
        rw [hr] at ih
        simp only [List.getLast?_cons_cons]
        rw [← hrc]
        exact ih

/-- `normalizeLineEndings` output contains no carriage returns. -/
theorem normalizeLineEndings_no_cr (l : Str) : '\r' ∉ normalizeLineEndings l :=
  replCR_no_cr _

/-- `normalizeLineEndings` turns a trailing LF or CR into a trailing LF. -/
theorem normalizeLineEndings_getLast (l : Str) (c : Char)
    (h : l.getLast? = some c) (hc : c = '\n' ∨ c = '\r') :
    (normalizeLineEndings l).getLast? = some '\n' := by
  unfold normalizeLineEndings
  rw [replCR_getLast, replCRLF_getLast, h]
  rcases hc with hc | hc <;> simp [hc]

/-- **C8**: under the default configuration, for every input and every line
ending in `{'\n', '\r\n', '\r'}`, the string `processMarkdown` produces (the
string `generateMarkdown` writes to the `.md` file) contains no carriage
return — `normalizeLineEndings` runs last, so a requested CRLF or CR never
survives — and the output always ends with a newline. -/
theorem c8_processMarkdown_no_cr_trailing_nl (content le : Str)
    (hle : le ∈ [s2l "\n", s2l "\r\n", s2l "\r"]) :
    '\r' ∉ processMarkdown mdDefaultCfg content le ∧
    (processMarkdown mdDefaultCfg content le).getLast? = some '\n' := by
  have hle' : le = s2l "\n" ∨ le = s2l "\r\n" ∨ le = s2l "\r" := by simpa using hle
  have hne : le ≠ [] := by
    rcases hle' with h | h | h <;> rw [h] <;> simp [s2l]
  have hlast : le.getLast? = some '\n' ∨ le.getLast? = some '\r' := by
    rcases hle' with h | h | h
    · left; rw [h]; rfl
    · left; rw [h]; rfl
    · right; rw [h]; rfl
  have main : ∀ p2 : Str,
      '\r' ∉ normalizeLineEndings (if (true && !(endsW le p2)) = true then p2 ++ le else p2) ∧
      (normalizeLineEndings
        (if (true && !(endsW le p2)) = true then p2 ++ le else p2)).getLast? = some '\n' := by
    intro p2
    refine ⟨normalizeLineEndings_no_cr _, ?_⟩
    have hend : (if (true && !(endsW le p2)) = true then p2 ++ le else p2).getLast?
        = le.getLast? := by
      by_cases hE : endsW le p2 = true
      · simp only [hE, Bool.not_true, Bool.and_false, if_neg (by simp : ¬(false = true))]
        exact endsW_getLast le p2 hne hE
      · have hF : endsW le p2 = false := by
          cases hx : endsW le p2
          · rfl
          · exact absurd hx hE
        simp only [hF, Bool.not_false, Bool.and_true, if_pos rfl]
        exact endsW_getLast le (p2 ++ le) hne (endsW_append_self le p2)
    rcases hlast with h | h
    · exact normalizeLineEndings_getLast _ '\n' (by rw [hend, h]) (Or.inl rfl)
    · exact normalizeLineEndings_getLast _ '\r' (by rw [hend, h]) (Or.inr rfl)
  exact main (joinNl ((splitOnNl (processLineEndings content le)).map rstripJs))

/-- Concrete instance of `c8_processMarkdown_no_cr_trailing_nl`
at content `"a\r\nb"` and line ending CRLF. -/
theorem c8_witness :
    '\r' ∉ processMarkdown mdDefaultCfg (s2l "a\r\nb") (s2l "\r\n") ∧
    (processMarkdown mdDefaultCfg (s2l "a\r\nb") (s2l "\r\n")).getLast? = some '\n' :=
  c8_processMarkdown_no_cr_trailing_nl (s2l "a\r\nb") (s2l "\r\n") (by simp)

/-! ## TextExtractor

Embedded from `TextExtractor.js`.  The GeniSpace SDK calls, the clock and
`Math.random` are oracles in `ExtEnv`; the temp directory is modelled as a
list of existing file paths (`Fs`). -/

/-- Decimal digit character. -/
def digitChar (n : Nat) : Char := Char.ofNat (48 + n)

/-- Little-endian decimal digits of `n` (with fuel for structural
recursion; the fuel is always set to `n` itself). -/
def natDigitsAux : Nat → Nat → Str
  | 0, _ => []
  | _ + 1, 0 => []
  | fuel + 1, n + 1 => digitChar ((n + 1) % 10) :: natDigitsAux fuel ((n + 1) / 10)

/-- Decimal rendering of a natural number (JS number-to-string for the
non-negative integers appearing in the source). -/
def natToStr (n : Nat) : Str :=
  if n = 0 then ['0'] else (natDigitsAux n n).reverse

/-- `path.join(dir, name)` for a directory without trailing slash. -/
def pathJoin (dir name : Str) : Str := dir ++ '/' :: name

/-- The file-system model: the set of currently existing temp files. -/
abbrev Fs := List Str

/-- Observable effects of the operators. -/
inductive Ev where
  | fetchInfo
  | fetchContent
  | createTemp (p : Str)
  | cleanup (p : Str)
  | unlinked (p : Str)
  | validate
  | resolve
  | render
  | write (p : Str)
  | upload (p : Str)
  deriving DecidableEq

/-- The file-info object returned by `client.storage.getFile` (already
unwrapped from the optional `{ success, data }` envelope, which the source
normalises with `fileInfoResponse.data || fileInfoResponse`). -/
structure FileInfo where
  name : Option Str
  fileName : Option Str
  deriving DecidableEq

deriving instance DecidableEq for Except

/-- Oracles for one `extractText` request. -/
structure ExtEnv where
  hasAuth : Bool
  getFileInfo : Except Str FileInfo
  getContent : Except Str Nat
  now : Nat
  rand : Str
  parse : Except Str Str
  unlinkOk : Bool
  deriving DecidableEq

/-- The configuration fields of `TextExtractor` used by the claims. -/
structure ExtCfg where
  tempDir : Str
  maxFileSize : Nat
  deriving DecidableEq

/-- Constructor defaults: `os.tmpdir()/text-extractor`, 50 MB. -/
def extDefaultCfg : ExtCfg := ⟨s2l "/tmp/text-extractor", 50 * 1024 * 1024⟩

/-- `TextExtractor.getFileExtension` helper: the basename
(`path.extname` only looks at the part after the last `'/'`). -/
def afterLastSlash (s : Str) : Str :=
  (s.reverse.takeWhile (fun c => c ≠ '/')).reverse

/-- `path.extname` on a basename: the substring from the last `'.'`,
empty when there is no dot, when the only dot starts the name, or for
`".."`. -/
def extnameOf (base : Str) : Str :=
  let tail := base.reverse.takeWhile (fun c => c ≠ '.')
  if tail.length = base.length then []
  else if tail.length + 1 = base.length then []
  else if base = s2l ".." then []
  else '.' :: tail.reverse

/-- `ext.replace('.', '')`: JS `replace` with a string pattern removes only
the first occurrence. -/
def removeFirstDot : Str → Str
  | [] => []
  | '.' :: r => r
  | c :: r => c :: removeFirstDot r

/-- `TextExtractor.getFileExtension`: `path.extname(fileName).toLowerCase()`
with the dot removed (`toLowerCase` modelled on ASCII). -/
def getFileExtension (fileName : Str) : Str :=
  removeFirstDot ((extnameOf (afterLastSlash fileName)).map lowerAscii)

/-- `TextExtractor.isSupportedFormat`. -/
def supportedFormats : List Str :=
  [s2l "pdf", s2l "doc", s2l "docx", s2l "xls", s2l "xlsx", s2l "txt"]

/-- `supportedFormats.includes(extension.toLowerCase())`. -/
def isSupportedFormat (extension : Str) : Bool :=
  decide ((extension.map lowerAscii) ∈ supportedFormats)

/-- The file name the extractor works with:
`fileInfo.name || fileInfo.fileName || ''`. -/
def fileNameOf (info : FileInfo) : Str :=
  (jsOrStr (jsOrStr info.name info.fileName) (some [])).getD []

/-- `TextExtractor.cleanupFiles` for one path: delete it only if it exists
and its path contains the configured temp directory; a failing `unlinkSync`
is caught and swallowed. -/
def cleanupFilesTE (cfg : ExtCfg) (unlinkOk : Bool) (p : Str) (fs : Fs) :
    Fs × List Ev :=
  if p ∈ fs ∧ hasSub cfg.tempDir p = true then
    if unlinkOk then (fs.filter (fun q => q ≠ p), [.cleanup p, .unlinked p])
    else (fs, [.cleanup p])
  else (fs, [.cleanup p])

/-- The generators' `cleanupFiles` (`MarkdownGenerator` / `WordGenerator` /
`PDFGenerator`): same structure, but the path may contain either the temp
or the output directory. -/
def cleanupFilesGen (tempDir outputDir : Str) (unlinkOk : Bool) (p : Str) (fs : Fs) :
    Fs × List Ev :=
  if p ∈ fs ∧ (hasSub tempDir p || hasSub outputDir p) = true then
    if unlinkOk then (fs.filter (fun q => q ≠ p), [.cleanup p, .unlinked p])
    else (fs, [.cleanup p])
  else (fs, [.cleanup p])

/-- `TextExtractor.getFileFromStorage`: fetch the content, check the size
limit, write the buffer to a fresh temp file. -/
def getFileFromStorage (cfg : ExtCfg) (env : ExtEnv) (extension : Str) (fs : Fs) :
    (Except Str Str) × List Ev × Fs :=
  match env.getContent with
  | .error m => (.error (s2l "获取文件失败: " ++ m), [.fetchContent], fs)
  | .ok len =>
    if cfg.maxFileSize < len then
      (.error (s2l "获取文件失败: " ++ s2l "文件大小超过限制: " ++
        natToStr cfg.maxFileSize ++ s2l " 字节"), [.fetchContent], fs)
    else
      (.ok (pathJoin cfg.tempDir
          (s2l "extract_" ++ natToStr env.now ++ '_' :: env.rand ++ '.' :: extension)),
        [.fetchContent, .createTemp (pathJoin cfg.tempDir
          (s2l "extract_" ++ natToStr env.now ++ '_' :: env.rand ++ '.' :: extension))],
        pathJoin cfg.tempDir
          (s2l "extract_" ++ natToStr env.now ++ '_' :: env.rand ++ '.' :: extension) :: fs)

/-- `TextExtractor.extractTextByFormat`: dispatch on the (lower-cased)
extension; each branch wraps the third-party parser failure in its own
message. -/
def extractTextByFormat (env : ExtEnv) (extension : Str) : Except Str Str :=
  let wrap : Str → Except Str Str := fun pre =>
    match env.parse with
    | .ok t => .ok t
    | .error m => .error (pre ++ m)
  let ext := extension.map lowerAscii
  if ext = s2l "pdf" then wrap (s2l "PDF 文本提取失败: ")
  else if ext = s2l "docx" then wrap (s2l "DOCX 文本提取失败: ")
  else if ext = s2l "doc" then wrap (s2l "DOC 文本提取失败: ")
  else if ext = s2l "xlsx" then wrap (s2l "XLSX 文本提取失败: ")
  else if ext = s2l "xls" then wrap (s2l "XLSX 文本提取失败: ")
  else if ext = s2l "txt" then wrap (s2l "TXT 文本提取失败: ")
  else .error (s2l "不支持的文件格式: " ++ extension)

/-- `TextExtractor.extractText`: validate `fileId`, check auth, fetch the
file info, check the format, download the content to a temp file, parse it,
and clean the temp file up in a `finally`. -/
def extractText (cfg : ExtCfg) (fileId : JSVal) (env : ExtEnv) (fs : Fs) :
    (Except Str Str) × List Ev × Fs :=
  if !(jsTruthy fileId) || jsTypeof fileId ≠ s2l "string" then
    (.error (s2l "fileId 参数是必需的，且必须是字符串"), [], fs)
  else if !env.hasAuth then
    (.error (s2l "缺少认证信息，请在请求头中提供 GeniSpace API Key"), [], fs)
  else
    match env.getFileInfo with
    | .error m => (.error (s2l "文本提取失败: " ++ m), [.fetchInfo], fs)
    | .ok info =>
      if !(isSupportedFormat (getFileExtension (fileNameOf info))) then
        (.error (s2l "文本提取失败: " ++ (s2l "不支持的文件格式: " ++
          getFileExtension (fileNameOf info) ++
          s2l "。支持的格式: pdf, doc, docx, xls, xlsx, txt")), [.fetchInfo], fs)
      else
        match getFileFromStorage cfg env (getFileExtension (fileNameOf info)) fs with
        | (.error m, evs, fs1) => (.error (s2l "文本提取失败: " ++ m), .fetchInfo :: evs, fs1)
        | (.ok p, evs, fs1) =>
          match extractTextByFormat env (getFileExtension (fileNameOf info)) with
          | .ok text =>
            (.ok text, .fetchInfo :: evs ++ (cleanupFilesTE cfg env.unlinkOk p fs1).2,
              (cleanupFilesTE cfg env.unlinkOk p fs1).1)
          | .error m =>
            (.error (s2l "文本提取失败: " ++ m),
              .fetchInfo :: evs ++ (cleanupFilesTE cfg env.unlinkOk p fs1).2,
              (cleanupFilesTE cfg env.unlinkOk p fs1).1)

/-! ## The `/extract` route (`text-extractor.routes.js`) -/

/-- `fileId.length` for the validated string case. -/
def jsStrLen : JSVal → Nat
  | .str s => s.length
  | _ => 0

/-- Response size limit of the route: 100 KB. -/
def MAX_RESPONSE_TEXT_SIZE : Nat := 100 * 1024

/-- The HTTP response of the route, at the granularity of the claims. -/
structure RouteResp where
  status : Nat
  code : Option Str
  message : Str
  text : Option Str
  textLength : Option Nat
  returnedLength : Option Nat
  isTruncated : Option Bool
  deriving DecidableEq

/-- `POST /extract`: the `validateExtractText` middleware, then the handler
(auth check, extraction, truncation to 100 KB, or a 500 error wrapping the
thrown message). -/
def postExtract (cfg : ExtCfg) (fileId : JSVal) (env : ExtEnv) (fs : Fs) :
    RouteResp × List Ev × Fs :=
  if !(jsTruthy fileId) || jsTypeof fileId ≠ s2l "string" then
    (⟨400, some (s2l "MISSING_FILE_ID"), s2l "缺少必需的 fileId 参数",
      none, none, none, none⟩, [], fs)
  else if 128 < jsStrLen fileId then
    (⟨400, some (s2l "FILE_ID_TOO_LONG"), s2l "fileId 长度超过限制（最大 128 字符）",
      none, none, none, none⟩, [], fs)
  else if !env.hasAuth then
    (⟨500, some (s2l "TEXT_EXTRACTION_FAILED"),
      s2l "文本提取失败: " ++ s2l "缺少认证信息，请在请求头中提供 GeniSpace API Key",
      none, none, none, none⟩, [], fs)
  else
    match extractText cfg fileId env fs with
    | (.error m, evs, fs1) =>
      (⟨500, some (s2l "TEXT_EXTRACTION_FAILED"), s2l "文本提取失败: " ++ m,
        none, none, none, none⟩, evs, fs1)
    | (.ok fullText, evs, fs1) =>
      (⟨200, none,
        if MAX_RESPONSE_TEXT_SIZE < fullText.length
          then s2l "文本提取成功（内容已截断）" else s2l "文本提取成功",
        some (if MAX_RESPONSE_TEXT_SIZE < fullText.length
          then fullText.take MAX_RESPONSE_TEXT_SIZE else fullText),
        some fullText.length,
        some (if MAX_RESPONSE_TEXT_SIZE < fullText.length
          then fullText.take MAX_RESPONSE_TEXT_SIZE else fullText).length,
        some (decide (MAX_RESPONSE_TEXT_SIZE < fullText.length))⟩, evs, fs1)

/-! ### More substring lemmas -/

theorem startsW_self_append (p r : Str) : startsW p (p ++ r) = true := by
  unfold startsW
  rw [matchLitEx_self_append]
  rfl

theorem hasSub_cons (pat : Str) (c : Char) (s : Str) (h : hasSub pat s = true) :
    hasSub pat (c :: s) = true := by
  rw [hasSub, h, Bool.or_true]

theorem hasSub_self_append (pat r : Str) : hasSub pat (pat ++ r) = true := by
  cases hp : pat ++ r with
  | nil =>
    rcases List.append_eq_nil.mp hp with ⟨hp1, hp2⟩
    subst hp1; subst hp2
    rfl
  | cons c cs =>
    rw [hasSub, ← hp]
    have : matchLitEx pat (pat ++ r) = some r := matchLitEx_self_append pat r
    rw [this]
    rfl

theorem hasSub_mid (pat x y : Str) : hasSub pat (x ++ pat ++ y) = true := by
  induction x with
  | nil => simpa using hasSub_self_append pat y
  | cons c cs ih => exact hasSub_cons _ _ _ ih

theorem hasSub_suffix_append (pat x : Str) : hasSub pat (x ++ pat) = true := by
  have := hasSub_mid pat x []
  simpa using this

/-! ### C3: only the supported formats are extracted -/

/-- For a supported extension with a failing parser, `extractTextByFormat`
fails with a message that wraps the underlying parser message. -/
theorem extractTextByFormat_error (extension : Str) (env : ExtEnv) (m : Str)
    (hsup : isSupportedFormat extension = true) (hp : env.parse = .error m) :
    ∃ pre, extractTextByFormat env extension = .error (pre ++ m) := by
  have hm : (extension.map lowerAscii) ∈ supportedFormats := of_decide_eq_true hsup
  unfold supportedFormats at hm
  simp only [List.mem_cons, List.not_mem_nil, or_false] at hm
  rcases hm with h | h | h | h | h | h
  · exact ⟨s2l "PDF 文本提取失败: ", by simp +decide [extractTextByFormat, h, hp]⟩
  · exact ⟨s2l "DOC 文本提取失败: ", by simp +decide [extractTextByFormat, h, hp]⟩
  · exact ⟨s2l "DOCX 文本提取失败: ", by simp +decide [extractTextByFormat, h, hp]⟩
  · exact ⟨s2l "XLSX 文本提取失败: ", by simp +decide [extractTextByFormat, h, hp]⟩
  · exact ⟨s2l "XLSX 文本提取失败: ", by simp +decide [extractTextByFormat, h, hp]⟩
  · exact ⟨s2l "TXT 文本提取失败: ", by simp +decide [extractTextByFormat, h, hp]⟩

/-- **C3**: `extractText` succeeds only when the file's name has a supported
extension (pdf, doc, docx, xls, xlsx, txt, compared case-insensitively); for
any other extension it fails with the unsupported-format error and the file
content is never downloaded. -/
theorem c3_extractText_supported_only :
    (∀ cfg fileId env fs text evs fs1,
        extractText cfg fileId env fs = (.ok text, evs, fs1) →
        ∃ info, env.getFileInfo = .ok info ∧
          isSupportedFormat (getFileExtension (fileNameOf info)) = true) ∧
    (∀ cfg fileId env fs info,
        jsTruthy fileId = true → jsTypeof fileId = s2l "string" →
        env.hasAuth = true → env.getFileInfo = .ok info →
        isSupportedFormat (getFileExtension (fileNameOf info)) = false →
        (extractText cfg fileId env fs).1 =
          .error (s2l "文本提取失败: " ++ (s2l "不支持的文件格式: " ++
            getFileExtension (fileNameOf info) ++
            s2l "。支持的格式: pdf, doc, docx, xls, xlsx, txt")) ∧
        Ev.fetchContent ∉ (extractText cfg fileId env fs).2.1) := by
  constructor
  · intro cfg fileId env fs text evs fs1 h
    unfold extractText at h
    split at h
    · simp at h
    · split at h
      · simp at h
      · split at h
        · simp at h
        · rename_i info hinfo
          refine ⟨info, hinfo, ?_⟩
          split at h
          · simp at h
          · rename_i hsup
            simpa using hsup
  · intro cfg fileId env fs info h1 h2 h3 hinfo hsup
    have hv : (!(jsTruthy fileId) || decide (jsTypeof fileId ≠ s2l "string")) = false := by
      simp [h1, h2]
    unfold extractText
    rw [hv]
    simp only [Bool.false_eq_true, if_false, h3, Bool.not_true, hinfo]
    rw [hsup]
    simp

/-- A concrete environment for a successful pdf extraction. -/
def envOkPdf : ExtEnv :=
  ⟨true, .ok ⟨some (s2l "a.pdf"), none⟩, .ok 100, 5, s2l "zzz", .ok (s2l "hello"), true⟩

/-- Concrete instance of `c3_extractText_supported_only`: a successful pdf
extraction, and a rejected `a.zip` file. -/
theorem c3_witness :
    (∃ info, (ExtEnv.mk true (.ok ⟨some (s2l "a.pdf"), none⟩) (.ok 100) 5 (s2l "zzz")
        (.ok (s2l "hello")) true).getFileInfo = .ok info ∧
      isSupportedFormat (getFileExtension (fileNameOf info)) = true) ∧
    ((extractText extDefaultCfg (.str (s2l "f1"))
        (ExtEnv.mk true (.ok ⟨some (s2l "a.zip"), none⟩) (.ok 100) 5 (s2l "zzz")
          (.ok (s2l "hello")) true) []).1 =
      .error (s2l "文本提取失败: " ++ (s2l "不支持的文件格式: " ++
        getFileExtension (fileNameOf ⟨some (s2l "a.zip"), none⟩) ++
        s2l "。支持的格式: pdf, doc, docx, xls, xlsx, txt"))) := by
  constructor
  · exact (c3_extractText_supported_only.1 extDefaultCfg (.str (s2l "f1")) _ [] (s2l "hello")
      [.fetchInfo, .fetchContent,
        .createTemp (pathJoin (s2l "/tmp/text-extractor") (s2l "extract_5_zzz.pdf")),
        .cleanup (pathJoin (s2l "/tmp/text-extractor") (s2l "extract_5_zzz.pdf")),
        .unlinked (pathJoin (s2l "/tmp/text-extractor") (s2l "extract_5_zzz.pdf"))] []
      (by decide))
  · exact (c3_extractText_supported_only.2 extDefaultCfg (.str (s2l "f1")) _ []
      ⟨some (s2l "a.zip"), none⟩ (by decide) (by decide) rfl rfl (by decide)).1

/-! ### C4: the `/extract` route's error handling -/

/-- Any failure of the handler body surfaces as a 500 `TEXT_EXTRACTION_FAILED`
response whose message prefixes `'文本提取失败: '` to the thrown message. -/
theorem postExtract_error_shape (cfg : ExtCfg) (fileId : JSVal) (env : ExtEnv) (fs : Fs)
    (m : Str) (h1 : jsTruthy fileId = true) (h2 : jsTypeof fileId = s2l "string")
    (h3 : jsStrLen fileId ≤ 128) (herr : (extractText cfg fileId env fs).1 = .error m) :
    (postExtract cfg fileId env fs).1.status = 500 ∧
    (postExtract cfg fileId env fs).1.code = some (s2l "TEXT_EXTRACTION_FAILED") ∧
    (postExtract cfg fileId env fs).1.message = s2l "文本提取失败: " ++ m := by
  have v1 : (!(jsTruthy fileId) || decide (jsTypeof fileId ≠ s2l "string")) = false := by
    simp [h1, h2]
  unfold postExtract
  rw [v1]
  simp only [Bool.false_eq_true, if_false]
  rw [if_neg (by simpa using Nat.not_lt.mpr h3)]
  by_cases hauth : env.hasAuth = true
  · rw [if_neg (by simp [hauth])]
    cases hx : extractText cfg fileId env fs with
    | mk r rest =>
      cases r with
      | ok t => rw [hx] at herr; simp at herr
      | error m2 =>
        have hm : m2 = m := by rw [hx] at herr; simpa using herr
        subst hm
        cases rest with
        | mk evs fs1 => exact ⟨rfl, rfl, rfl⟩
  · have hauth' : env.hasAuth = false := by simpa using hauth
    rw [if_pos (by simp [hauth'])]
    have hm : m = s2l "缺少认证信息，请在请求头中提供 GeniSpace API Key" := by
      unfold extractText at herr
      rw [v1] at herr
      simp [hauth'] at herr
      exact herr.symm
    rw [hm]
    exact ⟨rfl, rfl, rfl⟩

/-- **C4**: a missing, non-string, or over-long (more than 128 characters)
`fileId` yields HTTP 400 and the extractor is never invoked (no effect is
produced); every other failure yields HTTP 500 with error code
`TEXT_EXTRACTION_FAILED`, whose message is `'文本提取失败: '` prefixed to the
thrown message; in particular for a parser failure the response message
starts with `'文本提取失败: '` and contains the underlying library error
message. -/
theorem c4_route_errors :
    (∀ cfg fileId env fs,
        (jsTruthy fileId = false ∨ jsTypeof fileId ≠ s2l "string" ∨ 128 < jsStrLen fileId) →
        (postExtract cfg fileId env fs).1.status = 400 ∧
        ((postExtract cfg fileId env fs).1.code = some (s2l "MISSING_FILE_ID") ∨
          (postExtract cfg fileId env fs).1.code = some (s2l "FILE_ID_TOO_LONG")) ∧
        (postExtract cfg fileId env fs).2.1 = []) ∧
    (∀ cfg fileId env fs m,
        jsTruthy fileId = true → jsTypeof fileId = s2l "string" → jsStrLen fileId ≤ 128 →
        (extractText cfg fileId env fs).1 = .error m →
        (postExtract cfg fileId env fs).1.status = 500 ∧
        (postExtract cfg fileId env fs).1.code = some (s2l "TEXT_EXTRACTION_FAILED") ∧
        (postExtract cfg fileId env fs).1.message = s2l "文本提取失败: " ++ m) ∧
    (∀ cfg fileId env fs m info len,
        jsTruthy fileId = true → jsTypeof fileId = s2l "string" → jsStrLen fileId ≤ 128 →
        env.hasAuth = true → env.getFileInfo = .ok info →
        isSupportedFormat (getFileExtension (fileNameOf info)) = true →
        env.getContent = .ok len → len ≤ cfg.maxFileSize → env.parse = .error m →
        startsW (s2l "文本提取失败: ") (postExtract cfg fileId env fs).1.message = true ∧
        hasSub m (postExtract cfg fileId env fs).1.message = true) := by
  refine ⟨?_, ?_, ?_⟩
  · intro cfg fileId env fs hbad
    unfold postExtract
    by_cases v1 : (!(jsTruthy fileId) || decide (jsTypeof fileId ≠ s2l "string")) = true
    · rw [if_pos v1]; exact ⟨rfl, Or.inl rfl, rfl⟩
    · have hv : (!(jsTruthy fileId) || decide (jsTypeof fileId ≠ s2l "string")) = false :=
        Bool.eq_false_iff.mpr v1
      have h1 : jsTruthy fileId = true := by
        have := (Bool.or_eq_false_iff.mp hv).1
        simpa using this
      have h2 : jsTypeof fileId = s2l "string" := by
        have := (Bool.or_eq_false_iff.mp hv).2
        simpa using this
      have h3 : 128 < jsStrLen fileId := by
        rcases hbad with h | h | h
        · rw [h1] at h; cases h
        · exact absurd h2 h
        · exact h
      rw [hv]
      simp only [Bool.false_eq_true, if_false]
      rw [if_pos h3]
      exact ⟨rfl, Or.inr rfl, rfl⟩
  · exact postExtract_error_shape
  · intro cfg fileId env fs m info len h1 h2 h3 hauth hinfo hsup hcont hlen hparse
    obtain ⟨pre, hfmt⟩ := extractTextByFormat_error _ env m hsup hparse
    have v1 : (!(jsTruthy fileId) || decide (jsTypeof fileId ≠ s2l "string")) = false := by
      simp [h1, h2]
    have herr : (extractText cfg fileId env fs).1 =
        .error (s2l "文本提取失败: " ++ (pre ++ m)) := by
      unfold extractText
      rw [v1]
      simp only [Bool.false_eq_true, if_false, hauth, Bool.not_true, hinfo]
      rw [hsup]
      simp only [Bool.not_true, Bool.false_eq_true, if_false]
      unfold getFileFromStorage
      rw [hcont]
      dsimp only
      rw [if_neg (Nat.not_lt.mpr hlen)]
      dsimp only
      rw [hfmt]
    obtain ⟨-, -, hmsg⟩ := postExtract_error_shape cfg fileId env fs _ h1 h2 h3 herr
    rw [hmsg]
    constructor
    · exact startsW_self_append _ _
    · have : s2l "文本提取失败: " ++ (s2l "文本提取失败: " ++ (pre ++ m)) =
          (s2l "文本提取失败: " ++ (s2l "文本提取失败: " ++ pre)) ++ m := by
        simp [List.append_assoc]
      rw [this]
      exact hasSub_suffix_append m _

/-- A concrete environment whose parser fails with message `"boom"`. -/
def envParseErr : ExtEnv :=
  ⟨true, .ok ⟨some (s2l "a.pdf"), none⟩, .ok 100, 5, s2l "zzz", .error (s2l "boom"), true⟩

/-- Concrete instances of `c4_route_errors`: a `null` `fileId` gets a 400 with
no effects, and a parser failure gets a 500 whose message wraps `"boom"`. -/
theorem c4_witness :
    ((postExtract extDefaultCfg .null envParseErr []).1.status = 400 ∧
      ((postExtract extDefaultCfg .null envParseErr []).1.code = some (s2l "MISSING_FILE_ID") ∨
        (postExtract extDefaultCfg .null envParseErr []).1.code = some (s2l "FILE_ID_TOO_LONG")) ∧
      (postExtract extDefaultCfg .null envParseErr []).2.1 = []) ∧
    (startsW (s2l "文本提取失败: ")
        (postExtract extDefaultCfg (.str (s2l "f1")) envParseErr []).1.message = true ∧
      hasSub (s2l "boom")
        (postExtract extDefaultCfg (.str (s2l "f1")) envParseErr []).1.message = true) :=
  ⟨c4_route_errors.1 extDefaultCfg .null envParseErr [] (Or.inl rfl),
    c4_route_errors.2.2 extDefaultCfg (.str (s2l "f1")) envParseErr [] (s2l "boom")
      ⟨some (s2l "a.pdf"), none⟩ 100 (by decide) (by decide) (by decide) rfl rfl
      (by decide) rfl (by decide) rfl⟩

/-! ### C5: temp-file cleanup is best-effort and confined -/

/-- `extractText` succeeds only with authentication present. -/
theorem extractText_hasAuth (cfg : ExtCfg) (fileId : JSVal) (env : ExtEnv) (fs : Fs)
    (t : Str) (h : (extractText cfg fileId env fs).1 = .ok t) : env.hasAuth = true := by
  unfold extractText at h
  split at h
  · simp at h
  · split at h
    · simp at h
    · rename_i h2; simpa using h2

/-- **C5**: `cleanupFiles` never throws (a failing unlink is swallowed and
leaves the file system unchanged) and deletes a path only when it exists and
contains the configured temp/output directory; and whenever `extractText`
created a temp file, its deletion is performed before `extractText` returns
or propagates an error (so when the unlink syscall succeeds the file is
gone). -/
theorem c5_cleanup_confined :
    (∀ cfg ok p fs q, q ∈ fs → q ∉ (cleanupFilesTE cfg ok p fs).1 →
        q = p ∧ p ∈ fs ∧ hasSub cfg.tempDir p = true ∧ ok = true) ∧
    (∀ td od ok p fs q, q ∈ fs → q ∉ (cleanupFilesGen td od ok p fs).1 →
        q = p ∧ p ∈ fs ∧ (hasSub td p || hasSub od p) = true ∧ ok = true) ∧
    (∀ cfg p fs, (cleanupFilesTE cfg false p fs).1 = fs) ∧
    (∀ cfg fileId env fs r evs fs1 p,
        extractText cfg fileId env fs = (r, evs, fs1) →
        Ev.createTemp p ∈ evs → env.unlinkOk = true →
        Ev.cleanup p ∈ evs ∧ p ∉ fs1) := by
  refine ⟨?_, ?_, ?_, ?_⟩
  · intro cfg ok p fs q hq hnq
    unfold cleanupFilesTE at hnq
    split at hnq
    · rename_i hcond
      split at hnq
      · rename_i hok
        have hqp : q = p := by
          by_contra hne
          exact hnq (List.mem_filter.mpr ⟨hq, by simpa using hne⟩)
        exact ⟨hqp, hcond.1, hcond.2, hok⟩
      · exact absurd hq hnq
    · exact absurd hq hnq
  · intro td od ok p fs q hq hnq
    unfold cleanupFilesGen at hnq
    split at hnq
    · rename_i hcond
      split at hnq
      · rename_i hok
        have hqp : q = p := by
          by_contra hne
          exact hnq (List.mem_filter.mpr ⟨hq, by simpa using hne⟩)
        exact ⟨hqp, hcond.1, hcond.2, hok⟩
      · exact absurd hq hnq
    · exact absurd hq hnq
  · intro cfg p fs
    unfold cleanupFilesTE
    split
    · rfl
    · rfl
  · intro cfg fileId env fs r evs fs1 p h hmem hok
    unfold extractText at h
    split at h
    · injection h with h1 h2; injection h2 with h2 h3
      rw [← h2] at hmem; cases hmem
    · split at h
      · injection h with h1 h2; injection h2 with h2 h3
        rw [← h2] at hmem; cases hmem
      · split at h
        · injection h with h1 h2; injection h2 with h2 h3
          rw [← h2] at hmem; simp at hmem
        · split at h
          · injection h with h1 h2; injection h2 with h2 h3
            rw [← h2] at hmem; simp at hmem
          · split at h
            · rename_i m2 evs2 fs2 hstore
              injection h with h1 h2; injection h2 with h2 h3
              unfold getFileFromStorage at hstore
              split at hstore
              · injection hstore with g1 g2; injection g2 with g2 g3
                rw [← g2] at h2
                rw [← h2] at hmem; simp at hmem
              · split at hstore
                · injection hstore with g1 g2; injection g2 with g2 g3
                  rw [← g2] at h2
                  rw [← h2] at hmem; simp at hmem
                · injection hstore with g1 g2
                  simp at g1
            · rename_i p2 evs2 fs2 hstore
              unfold getFileFromStorage at hstore
              split at hstore
              · injection hstore with g1 g2; simp at g1
              · split at hstore
                · injection hstore with g1 g2; simp at g1
                · injection hstore with g1 g2
                  injection g2 with g2 g3
                  injection g1 with hp
                  have hevs2 : evs2 = [Ev.fetchContent, Ev.createTemp p2] := by
                    rw [← g2, hp]
                  have hfs2 : fs2 = p2 :: fs := by
                    rw [← g3, hp]
                  have hcontain : hasSub cfg.tempDir p2 = true := by
                    rw [← hp]
                    unfold pathJoin
                    exact hasSub_self_append _ _
                  have hclean : cleanupFilesTE cfg env.unlinkOk p2 fs2 =
                      ((p2 :: fs).filter (fun q => q ≠ p2),
                        [Ev.cleanup p2, Ev.unlinked p2]) := by
                    rw [hok, hfs2]
                    unfold cleanupFilesTE
                    rw [if_pos ⟨List.mem_cons_self _ _, hcontain⟩, if_pos rfl]
                  split at h
                  · injection h with h1 h2; injection h2 with h2 h3
                    rw [hclean] at h2 h3
                    have hpp : p = p2 := by
                      rw [← h2, hevs2] at hmem
                      simp at hmem
                      exact hmem
                    subst hpp
                    constructor
                    · rw [← h2, hevs2]; simp
                    · rw [← h3]; simp
                  · injection h with h1 h2; injection h2 with h2 h3
                    rw [hclean] at h2 h3
                    have hpp : p = p2 := by
                      rw [← h2, hevs2] at hmem
                      simp at hmem
                      exact hmem
                    subst hpp
                    constructor
                    · rw [← h2, hevs2]; simp
                    · rw [← h3]; simp

/-- Concrete instance of `c5_cleanup_confined`: after a successful run the
created temp file is cleaned up and gone. -/
theorem c5_witness :
    Ev.cleanup (pathJoin (s2l "/tmp/text-extractor") (s2l "extract_5_zzz.pdf")) ∈
      (extractText extDefaultCfg (.str (s2l "f1")) envOkPdf []).2.1 ∧
    pathJoin (s2l "/tmp/text-extractor") (s2l "extract_5_zzz.pdf") ∉
      (extractText extDefaultCfg (.str (s2l "f1")) envOkPdf []).2.2 :=
  c5_cleanup_confined.2.2.2 extDefaultCfg (.str (s2l "f1")) envOkPdf []
    (extractText extDefaultCfg (.str (s2l "f1")) envOkPdf []).1
    (extractText extDefaultCfg (.str (s2l "f1")) envOkPdf []).2.1
    (extractText extDefaultCfg (.str (s2l "f1")) envOkPdf []).2.2
    (pathJoin (s2l "/tmp/text-extractor") (s2l "extract_5_zzz.pdf")) rfl
    (by decide) rfl

/-! ### C9: the route truncates to 100 KB -/

/-- **C9**: on success the route returns at most 102400 characters:
`isTruncated` holds exactly when the full text is longer, the returned text
is then the first 102400 characters, `textLength` reports the full length
and `returnedLength` the returned length. -/
theorem c9_route_truncation (cfg : ExtCfg) (fileId : JSVal) (env : ExtEnv) (fs : Fs)
    (full : Str) (resp : RouteResp) (evs : List Ev) (fs1 : Fs)
    (hpost : postExtract cfg fileId env fs = (resp, evs, fs1))
    (hok : (extractText cfg fileId env fs).1 = .ok full)
    (h1 : jsTruthy fileId = true) (h2 : jsTypeof fileId = s2l "string")
    (h3 : jsStrLen fileId ≤ 128) :
    resp.status = 200 ∧
    resp.isTruncated = some (decide (MAX_RESPONSE_TEXT_SIZE < full.length)) ∧
    resp.textLength = some full.length ∧
    resp.text = some (if MAX_RESPONSE_TEXT_SIZE < full.length
      then full.take MAX_RESPONSE_TEXT_SIZE else full) ∧
    resp.returnedLength = some (if MAX_RESPONSE_TEXT_SIZE < full.length
      then full.take MAX_RESPONSE_TEXT_SIZE else full).length ∧
    (∀ t, resp.text = some t → t.length ≤ MAX_RESPONSE_TEXT_SIZE) := by
  have hauth := extractText_hasAuth cfg fileId env fs full hok
  have v1 : (!(jsTruthy fileId) || decide (jsTypeof fileId ≠ s2l "string")) = false := by
    simp [h1, h2]
  unfold postExtract at hpost
  rw [v1] at hpost
  simp only [Bool.false_eq_true, if_false] at hpost
  rw [if_neg (Nat.not_lt.mpr h3)] at hpost
  rw [if_neg (by simp [hauth])] at hpost
  cases hx : extractText cfg fileId env fs with
  | mk r rest =>
    rw [hx] at hpost
    cases rest with
    | mk evs2 fs2 =>
      cases r with
      | error m => rw [hx] at hok; simp at hok
      | ok f2 =>
        have hf : f2 = full := by rw [hx] at hok; simpa using hok
        subst hf
        injection hpost with hA hB
        subst hA
        refine ⟨rfl, rfl, rfl, rfl, rfl, ?_⟩
        intro t ht
        have ht' : t = (if MAX_RESPONSE_TEXT_SIZE < f2.length
            then f2.take MAX_RESPONSE_TEXT_SIZE else f2) := by
          simpa using ht.symm
        subst ht'
        by_cases hlen : MAX_RESPONSE_TEXT_SIZE < f2.length
        · rw [if_pos hlen]
          simp
        · rw [if_neg hlen]
          exact Nat.not_lt.mp hlen

/-- Concrete instance of `c9_route_truncation` at a short text. -/
theorem c9_witness :
    ((postExtract extDefaultCfg (.str (s2l "f1")) envOkPdf []).1).status = 200 ∧
    ((postExtract extDefaultCfg (.str (s2l "f1")) envOkPdf []).1).textLength =
      some (s2l "hello").length :=
  ⟨(c9_route_truncation extDefaultCfg (.str (s2l "f1")) envOkPdf [] (s2l "hello")
      (postExtract extDefaultCfg (.str (s2l "f1")) envOkPdf []).1
      (postExtract extDefaultCfg (.str (s2l "f1")) envOkPdf []).2.1
      (postExtract extDefaultCfg (.str (s2l "f1")) envOkPdf []).2.2
      rfl (by decide) (by decide) (by decide) (by decide)).1,
    (c9_route_truncation extDefaultCfg (.str (s2l "f1")) envOkPdf [] (s2l "hello")
      (postExtract extDefaultCfg (.str (s2l "f1")) envOkPdf []).1
      (postExtract extDefaultCfg (.str (s2l "f1")) envOkPdf []).2.1
      (postExtract extDefaultCfg (.str (s2l "f1")) envOkPdf []).2.2
      rfl (by decide) (by decide) (by decide) (by decide)).2.2.1⟩

/-! ## The generators (`PDFGenerator`, `WordGenerator`, `MarkdownGenerator`)

Each `generateX` becomes a pure function of the request and a `GenEnv` of
oracles.  The third-party pure library functions `Mustache.render` and
`marked.parse` are abstracted as function parameters (their output never
influences the control flow of the operator, only the bytes rendered). -/

/-- The object `client.storage.uploadFile` resolves with. -/
structure UploadResp where
  publicUrl : Option Str
  url : Option Str
  deriving DecidableEq

/-- `uploadedFile.publicUrl || uploadedFile.url`. -/
def uploadUrl (r : UploadResp) : Option Str := jsOrStr r.publicUrl r.url

/-- Oracles for one generator request. `render1` stands for the effectful
third-party rendering/packing step (puppeteer's `page.pdf`, docx's
`Packer.toBuffer` + `writeFileSync`, or `fs.writeFileSync`): it either
writes the output file or throws. -/
structure GenEnv where
  hasAuth : Bool
  authEnabled : Bool
  devSkip : Bool
  now : Nat
  uuid8 : Str
  download : Except Str Str
  readFile : Option Str
  render1 : Except Str Unit
  stat1 : Except Str Nat
  stat2 : Except Str Nat
  upload : Except Str UploadResp
  nowIso : Str
  unlinkOk : Bool
  deriving DecidableEq

/-- `PDFGenerator.getTemplateContent` (也 `MarkdownGenerator`'s): download a
URL template, read a path-like template (no newline, no `'#'`, contains a
slash) falling back to the literal content, else use the content as is. -/
def getTemplateContent (download : Except Str Str) (readFile : Option Str)
    (t : Str) : Except Str Str :=
  if startsW (s2l "http://") t || startsW (s2l "https://") t then
    match download with
    | .ok s => .ok s
    | .error m => .error (s2l "无法下载模板文件: " ++ m)
  else if !(hasSub (s2l "\n") t) && !(hasSub (s2l "#") t) &&
      (hasSub (s2l "/") t || hasSub (s2l "\\") t) then
    match readFile with
    | some s => .ok s
    | none => .ok t
  else .ok t

/-- `WordGenerator.resolveTemplateSource`: like `getTemplateContent` but
without the `'#'` exclusion, and a missing/unreadable file falls back to the
literal content. -/
def resolveTemplateSource (download : Except Str Str) (readFile : Option Str)
    (t : Str) : Except Str Str :=
  if startsW (s2l "http://") t || startsW (s2l "https://") t then
    match download with
    | .ok s => .ok s
    | .error m => .error (s2l "无法下载模板文件: " ++ m)
  else if !(hasSub (s2l "\n") t) && (hasSub (s2l "/") t || hasSub (s2l "\\") t) then
    match readFile with
    | some s => .ok s
    | none => .ok t
  else .ok t

/-- `fileName ? `${fileName}_${uniqueId}` : `${kind}_${Date.now()}_${uniqueId}``
(an empty `fileName` is falsy). -/
def finalFileName (kind : Str) (fileName : Option Str) (now : Nat) (uuid8 : Str) : Str :=
  match fileName with
  | some f =>
    if f.isEmpty then kind ++ '_' :: natToStr now ++ '_' :: uuid8
    else f ++ '_' :: uuid8
  | none => kind ++ '_' :: natToStr now ++ '_' :: uuid8

/-- `uploadToPlatformStorage`: the client is present (checked by the caller),
the SDK upload either resolves or the failure is wrapped. -/
def uploadToPlatform (upload : Except Str UploadResp) : Except Str (Option Str) :=
  match upload with
  | .ok resp => .ok (uploadUrl resp)
  | .error m => .error (s2l "平台存储上传失败: " ++ m)

/-- The cleanup trace of a generator: the output file was just written (it
exists), and the generators' `cleanupFiles` checks both directories, which
coincide under the default configuration. -/
def genCleanupEvs (dir : Str) (unlinkOk : Bool) (p : Str) : List Ev :=
  (cleanupFilesGen dir dir unlinkOk p [p]).2

/-- `PDFGenerator.getPDFPageCount`: the page count is not read from the PDF —
it is `Math.round(fileSize / (50 * 1024))` clamped to at least 1, or 1 when
the stat fails.  For a natural `size`, the IEEE quotient `size / 51200` is
close enough to the rational one that `Math.round` of it equals
`⌊(2 * size + 51200) / 102400⌋`. -/
def getPDFPageCount (stat : Except Str Nat) : Nat :=
  match stat with
  | .ok size => max 1 ((2 * size + 51200) / 102400)
  | .error _ => 1

/-- The result object of `generatePDF`. -/
structure PdfResult where
  success : Bool
  pdfURL : Option Str
  pageCount : Nat
  fileSize : Nat
  fileName : Str
  storageProvider : Str
  generatedAt : Str
  deriving DecidableEq

/-- The result object of `generateWord`. -/
structure WordResult where
  success : Bool
  wordURL : Option Str
  fileSize : Nat
  fileName : Str
  storageProvider : Str
  generatedAt : Str
  deriving DecidableEq

/-- The result object of `generateMarkdown`. -/
structure MdResult where
  success : Bool
  mdURL : Option Str
  lineCount : Nat
  fileSize : Nat
  fileName : Str
  storageProvider : Str
  generatedAt : Str
  deriving DecidableEq

/-- `PDFGenerator.generatePDF`.  `render` is `Mustache.render`; the rendered
markdown and the HTML conversion (`convertMarkdownToHTML`, a fixed skeleton
around `marked.parse` output) are pure data that only feed the browser
oracle `env.render1`, so their values do not appear in the result. -/
def generatePDF (render : Str → JSVal → Str) (dir : Str)
    (markdownTemplate templateData : JSVal) (fileName : Option Str)
    (env : GenEnv) : (Except Str PdfResult) × List Ev :=
  if !env.hasAuth then
    (.error (s2l "缺少认证信息，请在请求头中提供 GeniSpace API Key"), [])
  else if !(jsTruthy markdownTemplate) then
    (.error (s2l "必须提供 Markdown 模板内容"), [])
  else if templateData = .undef ∨ templateData = .null ∨
      jsTypeof templateData ≠ s2l "object" ∨ jsIsArray templateData = true then
    (.error (s2l "必须提供有效的 JSON 模板数据"), [])
  else
    match markdownTemplate with
    | .str t =>
      match getTemplateContent env.download env.readFile t with
      | .error m => (.error (s2l "PDF 生成失败: " ++ m), [.validate])
      | .ok templateContent =>
        match env.render1 with
        | .error m =>
          (.error (s2l "PDF 生成失败: " ++ (s2l "PDF 生成失败: " ++ m)),
            [.validate, .resolve, .render])
        | .ok _ =>
          match env.stat1 with
          | .error m =>
            (.error (s2l "PDF 生成失败: " ++ m),
              [.validate, .resolve, .render,
                .write (pathJoin dir
                  (finalFileName (s2l "pdf") fileName env.now env.uuid8 ++ s2l ".pdf"))])
          | .ok size =>
            match uploadToPlatform env.upload with
            | .error m =>
              (.error (s2l "PDF 生成失败: " ++ m),
                [.validate, .resolve, .render,
                  .write (pathJoin dir
                    (finalFileName (s2l "pdf") fileName env.now env.uuid8 ++ s2l ".pdf")),
                  .upload (pathJoin dir
                    (finalFileName (s2l "pdf") fileName env.now env.uuid8 ++ s2l ".pdf"))])
            | .ok urlOpt =>
              (.ok ⟨true, urlOpt, getPDFPageCount env.stat2, size,
                  finalFileName (s2l "pdf") fileName env.now env.uuid8 ++ s2l ".pdf",
                  s2l "platform", env.nowIso⟩,
                [.validate, .resolve, .render,
                  .write (pathJoin dir
                    (finalFileName (s2l "pdf") fileName env.now env.uuid8 ++ s2l ".pdf")),
                  .upload (pathJoin dir
                    (finalFileName (s2l "pdf") fileName env.now env.uuid8 ++ s2l ".pdf"))] ++
                genCleanupEvs dir env.unlinkOk
                  (pathJoin dir
                    (finalFileName (s2l "pdf") fileName env.now env.uuid8 ++ s2l ".pdf")))
    | _ =>
      (.error (s2l "PDF 生成失败: " ++ s2l "template.startsWith is not a function"),
        [.validate])

/-- The destructuring default of `generateWord`:
`const { templateData = {} } = options` replaces `undefined` with `{}`. -/
def wordTemplateData (td : JSVal) : JSVal := if td = .undef then .obj else td

/-- `WordGenerator.generateWord`.  The destructuring default
`templateData = {}` replaces an `undefined` argument before validation. -/
def generateWord (render : Str → JSVal → Str) (dir : Str)
    (markdownTemplate templateDataArg : JSVal) (fileName : Option Str)
    (env : GenEnv) : (Except Str WordResult) × List Ev :=
  if !env.authEnabled then
    (.error (s2l "必须启用 GENISPACE_AUTH 才能使用此功能"), [])
  else if !env.hasAuth then
    (.error (s2l "缺少认证信息，请在请求头中提供 GeniSpace API Key"), [])
  else if !(jsTruthy markdownTemplate) then
    (.error (s2l "必须提供 Markdown 模板内容"), [])
  else if wordTemplateData templateDataArg = .null ∨
      jsIsArray (wordTemplateData templateDataArg) = true then
    (.error (s2l "templateData 必须是对象格式"), [])
  else
    match markdownTemplate with
    | .str t =>
      match resolveTemplateSource env.download env.readFile t with
      | .error m => (.error (s2l "Word 生成失败: " ++ m), [.validate])
      | .ok _ =>
        match env.render1 with
        | .error m =>
          (.error (s2l "Word 生成失败: " ++ (s2l "Word 生成失败: " ++ m)),
            [.validate, .resolve, .render])
        | .ok _ =>
          match env.stat1 with
          | .error m =>
            (.error (s2l "Word 生成失败: " ++ m),
              [.validate, .resolve, .render,
                .write (pathJoin dir
                  (finalFileName (s2l "word") fileName env.now env.uuid8 ++ s2l ".docx"))])
          | .ok size =>
            match uploadToPlatform env.upload with
            | .error m =>
              (.error (s2l "Word 生成失败: " ++ m),
                [.validate, .resolve, .render,
                  .write (pathJoin dir
                    (finalFileName (s2l "word") fileName env.now env.uuid8 ++ s2l ".docx")),
                  .upload (pathJoin dir
                    (finalFileName (s2l "word") fileName env.now env.uuid8 ++ s2l ".docx"))])
            | .ok urlOpt =>
              (.ok ⟨true, urlOpt, size,
                  finalFileName (s2l "word") fileName env.now env.uuid8 ++ s2l ".docx",
                  s2l "platform", env.nowIso⟩,
                [.validate, .resolve, .render,
                  .write (pathJoin dir
                    (finalFileName (s2l "word") fileName env.now env.uuid8 ++ s2l ".docx")),
                  .upload (pathJoin dir
                    (finalFileName (s2l "word") fileName env.now env.uuid8 ++ s2l ".docx"))] ++
                genCleanupEvs dir env.unlinkOk
                  (pathJoin dir
                    (finalFileName (s2l "word") fileName env.now env.uuid8 ++ s2l ".docx")))
    | _ =>
      (.error (s2l "Word 生成失败: " ++ s2l "source.startsWith is not a function"),
        [.validate])

/-- The mock upload result `MarkdownGenerator.checkAuth` installs in
development mode with `SKIP_AUTH`. -/
def mockUploadResp (orig : Str) : UploadResp :=
  ⟨some (s2l "https://storage.example.com/test/" ++ orig),
    some (s2l "https://storage.example.com/test/" ++ orig)⟩

/-- The upload the markdown generator performs: through the mock client in
dev-skip mode, else through the real SDK client. -/
def mdUsedUpload (env : GenEnv) (orig : Str) : Except Str UploadResp :=
  if env.devSkip then .ok (mockUploadResp orig) else env.upload

/-- UTF-8 byte length: the `fs.statSync(...).size` of a file just written
with `fs.writeFileSync(path, content, 'utf8')`. -/
def utf8Len (s : Str) : Nat := s.foldl (fun n c => n + c.utf8Size) 0

/-- `MarkdownGenerator.generateMarkdown`.  `env.render1` is the
`fs.writeFileSync` of the processed content; the written file's stat size is
the UTF-8 length of that content. -/
def generateMarkdown (render : Str → JSVal → Str) (cfg : MdProcCfg) (dir : Str)
    (markdownContent templateData : JSVal) (fileName : Option Str) (lineEnding : Str)
    (env : GenEnv) : (Except Str MdResult) × List Ev :=
  if !env.devSkip && !env.hasAuth then
    (.error (s2l "缺少认证信息，请在请求头中提供 GeniSpace API Key"), [])
  else if !(jsTruthy markdownContent) || jsTypeof markdownContent ≠ s2l "string" then
    (.error (s2l "必须提供 Markdown 内容"), [])
  else if templateData ≠ .undef ∧ templateData ≠ .null ∧
      (jsTypeof templateData ≠ s2l "object" ∨ jsIsArray templateData = true) then
    (.error (s2l "templateData 必须是对象格式"), [])
  else
    match markdownContent with
    | .str t =>
      match getTemplateContent env.download env.readFile t with
      | .error m => (.error (s2l "Markdown 生成失败: " ++ m), [.validate])
      | .ok templateContent =>
        match env.render1 with
        | .error m =>
          (.error (s2l "Markdown 生成失败: " ++ (s2l "文件写入失败: " ++ m)),
            [.validate, .resolve] ++ (if jsTruthy templateData then [.render] else []))
        | .ok _ =>
          match uploadToPlatform (mdUsedUpload env
              (finalFileName (s2l "markdown") fileName env.now env.uuid8 ++ s2l ".md")) with
          | .error m =>
            (.error (s2l "Markdown 生成失败: " ++ m),
              ([.validate, .resolve] ++ (if jsTruthy templateData then [.render] else [])) ++
                [.write (pathJoin dir
                    (finalFileName (s2l "markdown") fileName env.now env.uuid8 ++ s2l ".md")),
                  .upload (pathJoin dir
                    (finalFileName (s2l "markdown") fileName env.now env.uuid8 ++ s2l ".md"))])
          | .ok urlOpt =>
            (.ok ⟨true, urlOpt,
                getLineCount (processMarkdown cfg
                  (if jsTruthy templateData then render templateContent templateData
                    else templateContent) lineEnding),
                utf8Len (processMarkdown cfg
                  (if jsTruthy templateData then render templateContent templateData
                    else templateContent) lineEnding),
                finalFileName (s2l "markdown") fileName env.now env.uuid8 ++ s2l ".md",
                s2l "platform", env.nowIso⟩,
              ([.validate, .resolve] ++ (if jsTruthy templateData then [.render] else [])) ++
                [.write (pathJoin dir
                    (finalFileName (s2l "markdown") fileName env.now env.uuid8 ++ s2l ".md")),
                  .upload (pathJoin dir
                    (finalFileName (s2l "markdown") fileName env.now env.uuid8 ++ s2l ".md"))] ++
                genCleanupEvs dir env.unlinkOk
                  (pathJoin dir
                    (finalFileName (s2l "markdown") fileName env.now env.uuid8 ++ s2l ".md")))
    | _ =>
      -- unreachable: the `typeof !== 'string'` validation already rejected
      -- every non-string value
      (.error (s2l "Markdown 生成失败: "), [.validate])

/-! ### Helper lemmas for the generators -/

theorem uploadToPlatform_ok (u : Except Str UploadResp) (urlOpt : Option Str)
    (h : uploadToPlatform u = .ok urlOpt) :
    ∃ resp, u = .ok resp ∧ urlOpt = uploadUrl resp := by
  unfold uploadToPlatform at h
  cases u with
  | ok resp => exact ⟨resp, rfl, by simpa using h.symm⟩
  | error m => simp at h

/-- The URL clause of C1: the result URL is `publicUrl || url`. -/
def urlSpec (resp : UploadResp) (u : Option Str) : Prop :=
  u = uploadUrl resp ∧
  (∀ s, resp.publicUrl = some s → ¬s.isEmpty → u = some s) ∧
  (resp.publicUrl = none → u = resp.url)

theorem urlSpec_of (resp : UploadResp) : urlSpec resp (uploadUrl resp) := by
  refine ⟨rfl, ?_, ?_⟩
  · intro s hs hne
    unfold uploadUrl jsOrStr
    rw [hs]
    simp only []
    rw [if_neg (by simpa using hne)]
  · intro hn
    unfold uploadUrl jsOrStr
    rw [hn]

theorem genCleanupEvs_eq (dir : Str) (ok : Bool) (x : Str) :
    genCleanupEvs dir ok (pathJoin dir x) =
      .cleanup (pathJoin dir x) ::
        (if ok then [Ev.unlinked (pathJoin dir x)] else []) := by
  unfold genCleanupEvs cleanupFilesGen
  rw [if_pos ⟨List.mem_singleton.mpr rfl, by
    rw [show pathJoin dir x = dir ++ '/' :: x from rfl]
    rw [hasSub_self_append]
    rfl⟩]
  cases ok with
  | true => rw [if_pos rfl]; simp
  | false => rw [if_neg (by simp)]; simp

/-! ### C10: the PDF page count is a size estimate -/

/-- **C10**: `pageCount` is not read from the PDF: `getPDFPageCount` is
`max 1 (round (size / 51200))` — in integer arithmetic
`max 1 ((2·size + 51200) / 102400)` — and defaults to 1 when the stat
fails; a successful `generatePDF` returns exactly this estimate. -/
theorem c10_pageCount_estimate :
    (∀ m, getPDFPageCount (.error m) = 1) ∧
    (∀ size, getPDFPageCount (.ok size) = max 1 ((2 * size + 51200) / 102400)) ∧
    (∀ render dir mt td fn env r evs,
        generatePDF render dir mt td fn env = (.ok r, evs) →
        r.pageCount = getPDFPageCount env.stat2 ∧
        (∀ s, env.stat2 = .ok s → r.pageCount = max 1 ((2 * s + 51200) / 102400))) := by
  refine ⟨fun m => rfl, fun size => rfl, ?_⟩
  intro render dir mt td fn env r evs h
  have hpc : r.pageCount = getPDFPageCount env.stat2 := by
    unfold generatePDF at h
    split at h
    · simp at h
    · split at h
      · simp at h
      · split at h
        · simp at h
        · split at h
          · split at h
            · simp at h
            · split at h
              · simp at h
              · split at h
                · simp at h
                · split at h
                  · simp at h
                  · injection h with h1 h2
                    injection h1 with h1
                    rw [← h1]
          · simp at h
  exact ⟨hpc, fun s hs => by rw [hpc, hs]; rfl⟩

/-- A successful concrete PDF environment. -/
def envPdfOk : GenEnv :=
  ⟨true, true, false, 7, s2l "abcd1234", .error [], none, .ok (), .ok 120000,
    .ok 120000, .ok ⟨some (s2l "https://cdn/x.pdf"), some (s2l "https://cdn/y.pdf")⟩,
    s2l "2024-01-01T00:00:00.000Z", true⟩

/-- The result of the concrete successful PDF run used by the witnesses. -/
def pdfResultC : PdfResult :=
  ⟨true, some (s2l "https://cdn/x.pdf"), 2, 120000, s2l "pdf_7_abcd1234.pdf",
    s2l "platform", s2l "2024-01-01T00:00:00.000Z"⟩

/-- The trace of the concrete successful PDF run used by the witnesses. -/
def pdfEvsC : List Ev :=
  [.validate, .resolve, .render,
    .write (s2l "/tmp/pdf-generator/pdf_7_abcd1234.pdf"),
    .upload (s2l "/tmp/pdf-generator/pdf_7_abcd1234.pdf"),
    .cleanup (s2l "/tmp/pdf-generator/pdf_7_abcd1234.pdf"),
    .unlinked (s2l "/tmp/pdf-generator/pdf_7_abcd1234.pdf")]

/-- Concrete instance of `c10_pageCount_estimate`: a 120000-byte PDF reports
`max 1 (round (120000 / 51200)) = 2` pages. -/
theorem c10_witness :
    pdfResultC.pageCount = max 1 ((2 * 120000 + 51200) / 102400) :=
  (c10_pageCount_estimate.2.2 (fun t _ => t) (s2l "/tmp/pdf-generator")
    (.str (s2l "# t")) .obj none envPdfOk pdfResultC pdfEvsC (by decide)).2 120000 rfl

/-! ### C1: order of effects on the success path -/

theorem generatePDF_ok_shape (render : Str → JSVal → Str) (dir : Str)
    (mt td : JSVal) (fn : Option Str) (env : GenEnv) (r : PdfResult) (evs : List Ev)
    (h : generatePDF render dir mt td fn env = (.ok r, evs)) :
    ∃ resp, env.upload = .ok resp ∧ urlSpec resp r.pdfURL ∧
      evs = [.validate, .resolve, .render,
          .write (pathJoin dir (finalFileName (s2l "pdf") fn env.now env.uuid8 ++ s2l ".pdf")),
          .upload (pathJoin dir (finalFileName (s2l "pdf") fn env.now env.uuid8 ++ s2l ".pdf")),
          .cleanup (pathJoin dir (finalFileName (s2l "pdf") fn env.now env.uuid8 ++ s2l ".pdf"))] ++
        (if env.unlinkOk then
          [Ev.unlinked (pathJoin dir (finalFileName (s2l "pdf") fn env.now env.uuid8 ++ s2l ".pdf"))]
        else []) := by
  unfold generatePDF at h
  split at h
  · simp at h
  · split at h
    · simp at h
    · split at h
      · simp at h
      · split at h
        · split at h
          · simp at h
          · split at h
            · simp at h
            · split at h
              · simp at h
              · split at h
                · simp at h
                · rename_i urlOpt hupl
                  obtain ⟨resp, hu, hurl⟩ := uploadToPlatform_ok _ _ hupl
                  injection h with h1 h2
                  injection h1 with h1
                  refine ⟨resp, hu, ?_, ?_⟩
                  · have hru : r.pdfURL = uploadUrl resp := by rw [← h1, hurl]
                    rw [hru]
                    exact urlSpec_of resp
                  · rw [← h2, genCleanupEvs_eq]
                    simp
        · simp at h

theorem generateWord_ok_shape (render : Str → JSVal → Str) (dir : Str)
    (mt td : JSVal) (fn : Option Str) (env : GenEnv) (r : WordResult) (evs : List Ev)
    (h : generateWord render dir mt td fn env = (.ok r, evs)) :
    ∃ resp, env.upload = .ok resp ∧ urlSpec resp r.wordURL ∧
      evs = [.validate, .resolve, .render,
          .write (pathJoin dir (finalFileName (s2l "word") fn env.now env.uuid8 ++ s2l ".docx")),
          .upload (pathJoin dir (finalFileName (s2l "word") fn env.now env.uuid8 ++ s2l ".docx")),
          .cleanup (pathJoin dir (finalFileName (s2l "word") fn env.now env.uuid8 ++ s2l ".docx"))] ++
        (if env.unlinkOk then
          [Ev.unlinked (pathJoin dir (finalFileName (s2l "word") fn env.now env.uuid8 ++ s2l ".docx"))]
        else []) := by
  unfold generateWord at h
  split at h
  · simp at h
  · split at h
    · simp at h
    · split at h
      · simp at h
      · split at h
        · simp at h
        · split at h
          · split at h
            · simp at h
            · split at h
              · simp at h
              · split at h
                · simp at h
                · split at h
                  · simp at h
                  · rename_i urlOpt hupl
                    obtain ⟨resp, hu, hurl⟩ := uploadToPlatform_ok _ _ hupl
                    injection h with h1 h2
                    injection h1 with h1
                    refine ⟨resp, hu, ?_, ?_⟩
                    · have hru : r.wordURL = uploadUrl resp := by rw [← h1, hurl]
                      rw [hru]
                      exact urlSpec_of resp
                    · rw [← h2, genCleanupEvs_eq]
                      simp
          · simp at h

theorem generateMarkdown_ok_shape (render : Str → JSVal → Str) (cfg : MdProcCfg)
    (dir : Str) (mc td : JSVal) (fn : Option Str) (le : Str) (env : GenEnv)
    (r : MdResult) (evs : List Ev)
    (h : generateMarkdown render cfg dir mc td fn le env = (.ok r, evs)) :
    ∃ resp,
      mdUsedUpload env (finalFileName (s2l "markdown") fn env.now env.uuid8 ++ s2l ".md") =
        .ok resp ∧
      urlSpec resp r.mdURL ∧
      evs = ([.validate, .resolve] ++ (if jsTruthy td then [Ev.render] else [])) ++
        [.write (pathJoin dir (finalFileName (s2l "markdown") fn env.now env.uuid8 ++ s2l ".md")),
          .upload (pathJoin dir (finalFileName (s2l "markdown") fn env.now env.uuid8 ++ s2l ".md")),
          .cleanup (pathJoin dir (finalFileName (s2l "markdown") fn env.now env.uuid8 ++ s2l ".md"))] ++
        (if env.unlinkOk then
          [Ev.unlinked (pathJoin dir (finalFileName (s2l "markdown") fn env.now env.uuid8 ++ s2l ".md"))]
        else []) := by
  unfold generateMarkdown at h
  split at h
  · simp at h
  · split at h
    · simp at h
    · split at h
      · simp at h
      · split at h
        · split at h
          · simp at h
          · split at h
            · simp at h
            · split at h
              · simp at h
              · rename_i urlOpt hupl
                obtain ⟨resp, hu, hurl⟩ := uploadToPlatform_ok _ _ hupl
                injection h with h1 h2
                injection h1 with h1
                refine ⟨resp, hu, ?_, ?_⟩
                · have hru : r.mdURL = uploadUrl resp := by rw [← h1, hurl]
                  rw [hru]
                  exact urlSpec_of resp
                · rw [← h2, genCleanupEvs_eq]
                  simp
        · simp at h

/-- **C1**: every successful generation (PDF, Word, Markdown) performs its
steps in the order validate → resolve/render template → write local file →
upload → delete local file; the temp file is cleaned up only after the
upload completed, and the returned URL is the uploaded file's
`publicUrl || url`. -/
theorem c1_generation_order :
    (∀ render dir mt td fn env (r : PdfResult) evs,
        generatePDF render dir mt td fn env = (.ok r, evs) →
        ∃ resp, env.upload = .ok resp ∧ urlSpec resp r.pdfURL ∧
          evs = [.validate, .resolve, .render,
              .write (pathJoin dir (finalFileName (s2l "pdf") fn env.now env.uuid8 ++ s2l ".pdf")),
              .upload (pathJoin dir (finalFileName (s2l "pdf") fn env.now env.uuid8 ++ s2l ".pdf")),
              .cleanup (pathJoin dir (finalFileName (s2l "pdf") fn env.now env.uuid8 ++ s2l ".pdf"))] ++
            (if env.unlinkOk then
              [Ev.unlinked (pathJoin dir (finalFileName (s2l "pdf") fn env.now env.uuid8 ++ s2l ".pdf"))]
            else [])) ∧
    (∀ render dir mt td fn env (r : WordResult) evs,
        generateWord render dir mt td fn env = (.ok r, evs) →
        ∃ resp, env.upload = .ok resp ∧ urlSpec resp r.wordURL ∧
          evs = [.validate, .resolve, .render,
              .write (pathJoin dir (finalFileName (s2l "word") fn env.now env.uuid8 ++ s2l ".docx")),
              .upload (pathJoin dir (finalFileName (s2l "word") fn env.now env.uuid8 ++ s2l ".docx")),
              .cleanup (pathJoin dir (finalFileName (s2l "word") fn env.now env.uuid8 ++ s2l ".docx"))] ++
            (if env.unlinkOk then
              [Ev.unlinked (pathJoin dir (finalFileName (s2l "word") fn env.now env.uuid8 ++ s2l ".docx"))]
            else [])) ∧
    (∀ render cfg dir mc td fn le env (r : MdResult) evs,
        generateMarkdown render cfg dir mc td fn le env = (.ok r, evs) →
        ∃ resp,
          mdUsedUpload env (finalFileName (s2l "markdown") fn env.now env.uuid8 ++ s2l ".md") =
            .ok resp ∧
          urlSpec resp r.mdURL ∧
          evs = ([.validate, .resolve] ++ (if jsTruthy td then [Ev.render] else [])) ++
            [.write (pathJoin dir (finalFileName (s2l "markdown") fn env.now env.uuid8 ++ s2l ".md")),
              .upload (pathJoin dir (finalFileName (s2l "markdown") fn env.now env.uuid8 ++ s2l ".md")),
              .cleanup (pathJoin dir (finalFileName (s2l "markdown") fn env.now env.uuid8 ++ s2l ".md"))] ++
            (if env.unlinkOk then
              [Ev.unlinked (pathJoin dir (finalFileName (s2l "markdown") fn env.now env.uuid8 ++ s2l ".md"))]
            else [])) :=
  ⟨generatePDF_ok_shape, generateWord_ok_shape, generateMarkdown_ok_shape⟩

/-- Concrete instance of `c1_generation_order` on the successful PDF run:
the trace is exactly validate, resolve, render, write, upload, cleanup,
unlink, and the URL is the `publicUrl`. -/
theorem c1_witness :
    ∃ resp, envPdfOk.upload = .ok resp ∧ urlSpec resp pdfResultC.pdfURL ∧
      pdfEvsC = [.validate, .resolve, .render,
          .write (pathJoin (s2l "/tmp/pdf-generator")
            (finalFileName (s2l "pdf") none envPdfOk.now envPdfOk.uuid8 ++ s2l ".pdf")),
          .upload (pathJoin (s2l "/tmp/pdf-generator")
            (finalFileName (s2l "pdf") none envPdfOk.now envPdfOk.uuid8 ++ s2l ".pdf")),
          .cleanup (pathJoin (s2l "/tmp/pdf-generator")
            (finalFileName (s2l "pdf") none envPdfOk.now envPdfOk.uuid8 ++ s2l ".pdf"))] ++
        (if envPdfOk.unlinkOk then
          [Ev.unlinked (pathJoin (s2l "/tmp/pdf-generator")
            (finalFileName (s2l "pdf") none envPdfOk.now envPdfOk.uuid8 ++ s2l ".pdf"))]
        else []) :=
  c1_generation_order.1 (fun t _ => t) (s2l "/tmp/pdf-generator")
    (.str (s2l "# t")) .obj none envPdfOk pdfResultC pdfEvsC (by decide)

/-! ### C2: validation precedes every effect -/

/-- **C2**: each generator validates before any rendering or effect:
`generatePDF` rejects a falsy template and a `templateData` that is
`undefined`, `null`, an array, or not an object; `generateWord` rejects a
falsy template and a `null` or array `templateData` (an `undefined` one is
replaced by `{}`); `generateMarkdown` rejects a falsy or non-string content
and a supplied `templateData` that is an array or not an object.  In every
failing case the trace is empty: no file is written, no upload attempted. -/
theorem c2_validation_before_effects :
    (∀ render dir mt td fn (env : GenEnv),
        (jsTruthy mt = false ∨ td = .undef ∨ td = .null ∨
          jsTypeof td ≠ s2l "object" ∨ jsIsArray td = true) →
        (∃ m, (generatePDF render dir mt td fn env).1 = .error m) ∧
        (generatePDF render dir mt td fn env).2 = [] ∧
        (env.hasAuth = true → jsTruthy mt = false →
          (generatePDF render dir mt td fn env).1 = .error (s2l "必须提供 Markdown 模板内容")) ∧
        (env.hasAuth = true → jsTruthy mt = true →
          (generatePDF render dir mt td fn env).1 = .error (s2l "必须提供有效的 JSON 模板数据"))) ∧
    (∀ render dir mt td fn (env : GenEnv),
        (jsTruthy mt = false ∨ td = .null ∨ jsIsArray td = true) →
        (∃ m, (generateWord render dir mt td fn env).1 = .error m) ∧
        (generateWord render dir mt td fn env).2 = [] ∧
        (env.authEnabled = true → env.hasAuth = true → jsTruthy mt = false →
          (generateWord render dir mt td fn env).1 = .error (s2l "必须提供 Markdown 模板内容")) ∧
        (env.authEnabled = true → env.hasAuth = true → jsTruthy mt = true →
          (generateWord render dir mt td fn env).1 = .error (s2l "templateData 必须是对象格式"))) ∧
    (∀ render cfg dir mc td fn le (env : GenEnv),
        (jsTruthy mc = false ∨ jsTypeof mc ≠ s2l "string" ∨
          (td ≠ .undef ∧ td ≠ .null ∧ (jsTypeof td ≠ s2l "object" ∨ jsIsArray td = true))) →
        (∃ m, (generateMarkdown render cfg dir mc td fn le env).1 = .error m) ∧
        (generateMarkdown render cfg dir mc td fn le env).2 = []) := by
  refine ⟨?_, ?_, ?_⟩
  · intro render dir mt td fn env hbad
    unfold generatePDF
    by_cases hA : env.hasAuth = true
    · rw [if_neg (by simp [hA])]
      by_cases hT : jsTruthy mt = true
      · have hbad' : td = .undef ∨ td = .null ∨
            jsTypeof td ≠ s2l "object" ∨ jsIsArray td = true := by
          rcases hbad with h | h
          · rw [hT] at h; cases h
          · exact h
        rw [if_neg (by simp [hT]), if_pos hbad']
        exact ⟨⟨_, rfl⟩, rfl, fun _ hF => absurd hT (by simp [hF]), fun _ _ => rfl⟩
      · have hF : jsTruthy mt = false := by simpa using hT
        rw [if_pos (by simp [hF])]
        exact ⟨⟨_, rfl⟩, rfl, fun _ _ => rfl, fun _ hT2 => absurd hT2 hT⟩
    · have hA' : env.hasAuth = false := by simpa using hA
      rw [if_pos (by simp [hA'])]
      exact ⟨⟨_, rfl⟩, rfl, fun hc => absurd hc hA, fun hc => absurd hc hA⟩
  · intro render dir mt td fn env hbad
    unfold generateWord
    by_cases hE : env.authEnabled = true
    · rw [if_neg (by simp [hE])]
      by_cases hA : env.hasAuth = true
      · rw [if_neg (by simp [hA])]
        by_cases hT : jsTruthy mt = true
        · have hbad' : td = .null ∨ jsIsArray td = true := by
            rcases hbad with h | h
            · rw [hT] at h; cases h
            · exact h
          have hw : wordTemplateData td = .null ∨ jsIsArray (wordTemplateData td) = true := by
            rcases hbad' with h | h
            · subst h; left; rfl
            · cases td <;> simp_all [wordTemplateData, jsIsArray]
          rw [if_neg (by simp [hT]), if_pos hw]
          exact ⟨⟨_, rfl⟩, rfl, fun _ _ hF => absurd hT (by simp [hF]), fun _ _ _ => rfl⟩
        · have hF : jsTruthy mt = false := by simpa using hT
          rw [if_pos (by simp [hF])]
          exact ⟨⟨_, rfl⟩, rfl, fun _ _ _ => rfl, fun _ _ hT2 => absurd hT2 hT⟩
      · have hA' : env.hasAuth = false := by simpa using hA
        rw [if_pos (by simp [hA'])]
        exact ⟨⟨_, rfl⟩, rfl, fun _ hc => absurd hc hA, fun _ hc => absurd hc hA⟩
    · have hE' : env.authEnabled = false := by simpa using hE
      rw [if_pos (by simp [hE'])]
      exact ⟨⟨_, rfl⟩, rfl, fun hc => absurd hc hE, fun hc => absurd hc hE⟩
  · intro render cfg dir mc td fn le env hbad
    unfold generateMarkdown
    by_cases hC : (!env.devSkip && !env.hasAuth) = true
    · rw [if_pos hC]
      exact ⟨⟨_, rfl⟩, rfl⟩
    · rw [if_neg (by simpa using hC)]
      by_cases hV : (!(jsTruthy mc) || decide (jsTypeof mc ≠ s2l "string")) = true
      · rw [if_pos hV]
        exact ⟨⟨_, rfl⟩, rfl⟩
      · have hV' : (!(jsTruthy mc) || decide (jsTypeof mc ≠ s2l "string")) = false := by
          simpa using hV
        have h1 : jsTruthy mc = true := by
          have := (Bool.or_eq_false_iff.mp hV').1
          simpa using this
        have h2 : jsTypeof mc = s2l "string" := by
          have := (Bool.or_eq_false_iff.mp hV').2
          simpa using this
        have hbad' : td ≠ .undef ∧ td ≠ .null ∧
            (jsTypeof td ≠ s2l "object" ∨ jsIsArray td = true) := by
          rcases hbad with h | h | h
          · rw [h1] at h; cases h
          · exact absurd h2 h
          · exact h
        rw [hV']
        simp only [Bool.false_eq_true, if_false]
        rw [if_pos hbad']
        exact ⟨⟨_, rfl⟩, rfl⟩

/-- Concrete instance of `c2_validation_before_effects`: an array
`templateData` for the PDF generator yields the validation error with an
empty trace. -/
theorem c2_witness :
    (∃ m, (generatePDF (fun t _ => t) (s2l "/tmp/pdf-generator")
        (.str (s2l "# t")) .arr none envPdfOk).1 = .error m) ∧
    (generatePDF (fun t _ => t) (s2l "/tmp/pdf-generator")
        (.str (s2l "# t")) .arr none envPdfOk).2 = [] :=
  have h := c2_validation_before_effects.1 (fun t _ => t) (s2l "/tmp/pdf-generator")
    (.str (s2l "# t")) .arr none envPdfOk (Or.inr (Or.inr (Or.inr (Or.inr rfl))))
  ⟨h.1, h.2.1⟩

/-! ### C6: the operators are not time-independent (corrected) -/

/-- A markdown environment at time 0. -/
def envMdT0 : GenEnv :=
  ⟨true, true, false, 0, s2l "aaaaaaaa", .error [], none, .ok (), .ok 0, .ok 0,
    .ok ⟨some (s2l "https://cdn/doc.md"), none⟩, s2l "2024-01-01T00:00:00.000Z", true⟩

/-- The same environment one millisecond later. -/
def envMdT1 : GenEnv :=
  ⟨true, true, false, 1, s2l "aaaaaaaa", .error [], none, .ok (), .ok 0, .ok 0,
    .ok ⟨some (s2l "https://cdn/doc.md"), none⟩, s2l "2024-01-01T00:00:00.001Z", true⟩

/-- **C6 counterexample**: two invocations of `generateMarkdown` with
identical validated inputs but at different times produce different results
(the `fileName` embeds `Date.now()` and `generatedAt` embeds the wall
clock), refuting result-identity independent of when the call happens. -/
theorem c6_counterexample :
    (generateMarkdown (fun t _ => t) mdDefaultCfg (s2l "/tmp/markdown-generator")
        (.str (s2l "# hi")) .undef none (s2l "\n") envMdT0).1 ≠
      (generateMarkdown (fun t _ => t) mdDefaultCfg (s2l "/tmp/markdown-generator")
        (.str (s2l "# hi")) .undef none (s2l "\n") envMdT1).1 := by decide

/-- The content-determined result fields of a successful `generateMarkdown`
run on an inline (non-URL, non-path) template. -/
theorem generateMarkdown_ok_fields (render : Str → JSVal → Str) (cfg : MdProcCfg)
    (dir : Str) (t : Str) (td : JSVal) (fn : Option Str) (le : Str) (env : GenEnv)
    (r : MdResult) (evs : List Ev)
    (hu1 : startsW (s2l "http://") t = false) (hu2 : startsW (s2l "https://") t = false)
    (hp : (hasSub (s2l "/") t || hasSub (s2l "\\") t) = false)
    (h : generateMarkdown render cfg dir (.str t) td fn le env = (.ok r, evs)) :
    r.success = true ∧
    r.lineCount = getLineCount (processMarkdown cfg
      (if jsTruthy td then render t td else t) le) ∧
    r.fileSize = utf8Len (processMarkdown cfg
      (if jsTruthy td then render t td else t) le) ∧
    r.storageProvider = s2l "platform" := by
  have hres : getTemplateContent env.download env.readFile t = .ok t := by
    unfold getTemplateContent
    rw [if_neg (by simp [hu1, hu2])]
    rw [if_neg (by simp [hp])]
  unfold generateMarkdown at h
  split at h
  · simp at h
  · split at h
    · simp at h
    · split at h
      · simp at h
      · dsimp only at h
        rw [hres] at h
        split at h
        · rename_i m heq; cases heq
        · rename_i tc heq
          have htc : tc = t := by injection heq with e; exact e.symm
          subst htc
          split at h
          · simp at h
          · split at h
            · simp at h
            · injection h with h1 h2
              injection h1 with h1
              rw [← h1]
              exact ⟨rfl, rfl, rfl, rfl⟩

/-- **C6 amended**: each generator is stateless across requests — the result
is a pure function of the request and the call's own environment (clock,
generated unique id, storage response); no state from previous requests is
involved.  However the result is not time-independent: only the
content-determined fields (`success`, `lineCount`, `fileSize`,
`storageProvider`) coincide between two successful invocations of
`generateMarkdown` with identical validated inline inputs, while `fileName`,
URL and `generatedAt` may differ with the clock, the generated id and the
storage response. -/
theorem c6_amended_stateless (render : Str → JSVal → Str) (cfg : MdProcCfg)
    (dir : Str) (t : Str) (td : JSVal) (fn : Option Str) (le : Str)
    (env1 env2 : GenEnv) (r1 r2 : MdResult) (evs1 evs2 : List Ev)
    (hu1 : startsW (s2l "http://") t = false) (hu2 : startsW (s2l "https://") t = false)
    (hp : (hasSub (s2l "/") t || hasSub (s2l "\\") t) = false)
    (h1 : generateMarkdown render cfg dir (.str t) td fn le env1 = (.ok r1, evs1))
    (h2 : generateMarkdown render cfg dir (.str t) td fn le env2 = (.ok r2, evs2)) :
    r1.success = r2.success ∧ r1.lineCount = r2.lineCount ∧
    r1.fileSize = r2.fileSize ∧ r1.storageProvider = r2.storageProvider := by
  obtain ⟨a1, b1, c1, d1⟩ := generateMarkdown_ok_fields render cfg dir t td fn le env1
    r1 evs1 hu1 hu2 hp h1
  obtain ⟨a2, b2, c2, d2⟩ := generateMarkdown_ok_fields render cfg dir t td fn le env2
    r2 evs2 hu1 hu2 hp h2
  exact ⟨by rw [a1, a2], by rw [b1, b2], by rw [c1, c2], by rw [d1, d2]⟩

/-- Result of the time-0 markdown run. -/
def mdResT0 : MdResult :=
  ⟨true, some (s2l "https://cdn/doc.md"), 2, 5,
    s2l "markdown_0_aaaaaaaa.md", s2l "platform", s2l "2024-01-01T00:00:00.000Z"⟩

/-- Result of the time-1 markdown run. -/
def mdResT1 : MdResult :=
  ⟨true, some (s2l "https://cdn/doc.md"), 2, 5,
    s2l "markdown_1_aaaaaaaa.md", s2l "platform", s2l "2024-01-01T00:00:00.001Z"⟩

/-- Trace of the time-0 markdown run. -/
def mdEvsT0 : List Ev :=
  [.validate, .resolve,
    .write (s2l "/tmp/markdown-generator/markdown_0_aaaaaaaa.md"),
    .upload (s2l "/tmp/markdown-generator/markdown_0_aaaaaaaa.md"),
    .cleanup (s2l "/tmp/markdown-generator/markdown_0_aaaaaaaa.md"),
    .unlinked (s2l "/tmp/markdown-generator/markdown_0_aaaaaaaa.md")]

/-- Trace of the time-1 markdown run. -/
def mdEvsT1 : List Ev :=
  [.validate, .resolve,
    .write (s2l "/tmp/markdown-generator/markdown_1_aaaaaaaa.md"),
    .upload (s2l "/tmp/markdown-generator/markdown_1_aaaaaaaa.md"),
    .cleanup (s2l "/tmp/markdown-generator/markdown_1_aaaaaaaa.md"),
    .unlinked (s2l "/tmp/markdown-generator/markdown_1_aaaaaaaa.md")]

/-- Concrete instance of `c6_amended_stateless`: the time-0 and time-1 runs
agree on the content-determined fields. -/
theorem c6_witness :
    (generateMarkdown (fun t _ => t) mdDefaultCfg (s2l "/tmp/markdown-generator")
      (.str (s2l "# hi")) .undef none (s2l "\n") envMdT0).1 = .ok mdResT0 ∧
    (generateMarkdown (fun t _ => t) mdDefaultCfg (s2l "/tmp/markdown-generator")
      (.str (s2l "# hi")) .undef none (s2l "\n") envMdT1).1 = .ok mdResT1 ∧
    mdResT0.lineCount = mdResT1.lineCount ∧ mdResT0.fileSize = mdResT1.fileSize := by
  have h := c6_amended_stateless (fun t _ => t) mdDefaultCfg (s2l "/tmp/markdown-generator")
    (s2l "# hi") .undef none (s2l "\n") envMdT0 envMdT1 mdResT0 mdResT1 mdEvsT0 mdEvsT1
    (by decide) (by decide) (by decide) (by decide) (by decide)
  exact ⟨by decide, by decide, h.2.1, h.2.2.1⟩

/-! ## `WordGenerator.extractAndReplaceTables`

A faithful embedding of the regex passes of `extractAndReplaceTables`.
The JavaScript lazy/greedy regexes are implemented as explicit scanners
with the same leftmost-match, earliest-lazy semantics:

* `/<div[^>]*class=["']table-container["'][^>]*>[\s\S]*?<table[^>]*>([\s\S]*?)<\/table>[\s\S]*?<\/div>/gi`
  is `matchWrappedAt` scanned by `execWrapped`;
* `/<table[^>]*>([\s\S]*?)<\/table>/gis` is `execPlain`
  (built on `findTableThenClose`);
* `/__TABLE_PLACEHOLDER_(\d+)__/g` is `execPh` (built on `findPh`).

Since `[^>]*` cannot cross a `'>'`, a tag matches exactly up to the first
`'>'` after its name; `[\s\S]*?` takes the earliest continuation, and a
failed continuation moves the overall start rightwards — the scanners
restart one character later, exactly as the regex engine does. -/

/-- The quote class `["']`. -/
def quoteChar (c : Char) : Bool := c = '"' || c = '\''

/-- Does `class=["']table-container["']` (case-insensitive) match at the
start of `s`?  (The two quotes are independent, as in the regex.) -/
def classTCAt (s : Str) : Bool :=
  match matchLitCi (s2l "class=") s with
  | none => false
  | some r1 =>
    match r1 with
    | [] => false
    | q :: r2 =>
      quoteChar q &&
        (match matchLitCi (s2l "table-container") r2 with
          | none => false
          | some [] => false
          | some (q2 :: _) => quoteChar q2)

/-- Does the class pattern occur anywhere in the tag chunk? -/
def hasClassTC : Str → Bool
  | [] => false
  | c :: cs => classTCAt (c :: cs) || hasClassTC cs

/-- `<div[^>]*class=["']table-container["'][^>]*>` at the start of `s`:
the tag runs to the first `'>'`, whose chunk must contain the class
pattern; returns the rest after the `'>'`. -/
def matchDivOpen (s : Str) : Option Str :=
  match matchLitCi (s2l "<div") s with
  | none => none
  | some r =>
    if hasClassTC (r.takeWhile (fun c => c ≠ '>')) then
      match r.dropWhile (fun c => c ≠ '>') with
      | '>' :: r2 => some r2
      | _ => none
    else none

/-- `<table[^>]*>` at the start of `s`. -/
def matchTableOpen (s : Str) : Option Str :=
  match matchLitCi (s2l "<table") s with
  | none => none
  | some r =>
    match r.dropWhile (fun c => c ≠ '>') with
    | '>' :: r2 => some r2
    | _ => none

/-- Earliest case-insensitive occurrence of the literal `pat`:
`(offset of the occurrence, rest after it)`. -/
def findLitCi (pat : Str) : Str → Option (Nat × Str)
  | [] => none
  | c :: cs =>
    match matchLitCi pat (c :: cs) with
    | some r => some (0, r)
    | none =>
      match findLitCi pat cs with
      | some (i, r) => some (i + 1, r)
      | none => none

/-- Lazy `[\s\S]*?<table[^>]*>([\s\S]*?)<\/table>`: the earliest position
where a table open tag matches and a `</table>` follows; returns
`(gap, open-tag length, content length, rest after the close tag)`. -/
def findTableThenClose : Str → Option (Nat × Nat × Nat × Str)
  | [] => none
  | c :: cs =>
    match matchTableOpen (c :: cs) with
    | some r =>
      match findLitCi (s2l "</table>") r with
      | some (j, r2) => some (0, (c :: cs).length - r.length, j, r2)
      | none =>
        match findTableThenClose cs with
        | some (i, tl, j, r2) => some (i + 1, tl, j, r2)
        | none => none
    | none =>
      match findTableThenClose cs with
      | some (i, tl, j, r2) => some (i + 1, tl, j, r2)
      | none => none

/-- One wrapped-table regex match anchored at the start of `s`: the whole
match's length, and the first `<table…>…</table>` inside the matched text
(the source's `wrappedMatch[0].match(/<table[^>]*>([\s\S]*?)<\/table>/is)`). -/
def matchWrappedAt (s : Str) : Option (Nat × Str) :=
  match matchDivOpen s with
  | none => none
  | some afterDiv =>
    match findTableThenClose afterDiv with
    | none => none
    | some (_, _, _, afterClose) =>
      match findLitCi (s2l "</div>") afterClose with
      | none => none
      | some (_, afterDivClose) =>
        match findTableThenClose (s.take (s.length - afterDivClose.length)) with
        | none => none
        | some (i2, tl2, j2, _) =>
          some (s.length - afterDivClose.length,
            ((s.take (s.length - afterDivClose.length)).drop i2).take (tl2 + j2 + 8))

/-- A recorded regex match: start index, length, captured table HTML. -/
structure RMatch where
  start : Nat
  len : Nat
  tableHtml : Str
  deriving DecidableEq

/-- The `while exec` loop of the wrapped-table regex (global flag): scan
left to right, jump over each match. -/
def execWrappedAux : Nat → Str → Nat → List RMatch
  | 0, _, _ => []
  | _ + 1, [], _ => []
  | fuel + 1, c :: cs, pos =>
    match matchWrappedAt (c :: cs) with
    | some m =>
      ⟨pos, m.1, m.2⟩ :: execWrappedAux fuel ((c :: cs).drop m.1) (pos + m.1)
    | none => execWrappedAux fuel cs (pos + 1)

def execWrapped (s : Str) : List RMatch := execWrappedAux s.length s 0

/-- The `while exec` loop of the plain-table regex. -/
def execPlainAux : Nat → Str → Nat → List RMatch
  | 0, _, _ => []
  | fuel + 1, s, pos =>
    match findTableThenClose s with
    | none => []
    | some (i, tl, j, rest) =>
      ⟨pos + i, tl + j + 8, (s.drop i).take (tl + j + 8)⟩ ::
        execPlainAux fuel rest (pos + i + (tl + j + 8))

def execPlain (s : Str) : List RMatch := execPlainAux s.length s 0

/-- Decimal digit characters for the placeholder indices. -/
def digitsToNat (l : Str) : Nat := l.foldl (fun a c => a * 10 + (c.toNat - 48)) 0

/-- `` `__TABLE_PLACEHOLDER_${i}__` ``. -/
def phStr (i : Nat) : Str := s2l "__TABLE_PLACEHOLDER_" ++ natToStr i ++ s2l "__"

/-- `` `\n__TABLE_MARKER_${i}__\n` ``. -/
def markerStr (i : Nat) : Str := s2l "\n__TABLE_MARKER_" ++ natToStr i ++ s2l "__\n"

/-- `__TABLE_PLACEHOLDER_(\d+)__` at the start of `s`: total match length
and the parsed index. -/
def phAt (s : Str) : Option (Nat × Nat) :=
  match matchLitEx (s2l "__TABLE_PLACEHOLDER_") s with
  | none => none
  | some r =>
    if (r.takeWhile Char.isDigit).isEmpty then none
    else
      match matchLitEx (s2l "__") (r.dropWhile Char.isDigit) with
      | none => none
      | some _ =>
        some (20 + (r.takeWhile Char.isDigit).length + 2,
          digitsToNat (r.takeWhile Char.isDigit))

/-- Earliest placeholder occurrence: `(offset, length, parsed index)`. -/
def findPh : Str → Option (Nat × Nat × Nat)
  | [] => none
  | c :: cs =>
    match phAt (c :: cs) with
    | some (t, x) => some (0, t, x)
    | none =>
      match findPh cs with
      | some (i, t, x) => some (i + 1, t, x)
      | none => none

/-- The `while exec` loop of the placeholder regex. -/
def execPhAux : Nat → Str → Nat → List (Nat × Nat × Nat)
  | 0, _, _ => []
  | fuel + 1, s, pos =>
    match findPh s with
    | none => []
    | some (i, t, x) => (pos + i, t, x) :: execPhAux fuel (s.drop (i + t)) (pos + i + t)

def execPh (s : Str) : List (Nat × Nat × Nat) := execPhAux s.length s 0

/-- One pending replacement (`{ start, end, placeholder }` of the source,
with `len = end - start`). -/
structure Repl where
  start : Nat
  len : Nat
  repl : Str
  deriving DecidableEq

/-- `processedHtml.substring(0, rep.start) + rep.placeholder +
processedHtml.substring(rep.end)`. -/
def spliceOne (s : Str) (r : Repl) : Str :=
  s.take r.start ++ r.repl ++ s.drop (r.start + r.len)

/-- Apply the replacements in order (the source sorts them by start
descending first, so earlier indices stay valid). -/
def spliceAll (reps : List Repl) (s : Str) : Str := reps.foldl spliceOne s

/-- `{ placeholder, tableHtml }` as pushed into `tablePlaceholders`. -/
structure TablePlaceholder where
  placeholder : Str
  tableHtml : Str
  deriving DecidableEq

/-- The plain-table matches kept by the `processedRanges` check: a match is
dropped when its start index lies inside a wrapped match's range. -/
def keptPlain (html : Str) : List RMatch :=
  (execPlain html).filter (fun m =>
    !((execWrapped html).any (fun w => w.start ≤ m.start && m.start < w.start + w.len)))

/-- All matches in discovery order: wrapped first, then the kept plain
ones (`tableIndex` keeps counting across the two loops). -/
def allMatches (html : Str) : List RMatch := execWrapped html ++ keptPlain html

/-- The `tablePlaceholders` array. -/
def tablePlaceholdersOf (html : Str) : List TablePlaceholder :=
  (allMatches html).enum.map (fun p => ⟨phStr p.1, p.2.tableHtml⟩)

/-- The `replacements` array. -/
def replsOf (html : Str) : List Repl :=
  (allMatches html).enum.map (fun p => ⟨p.2.start, p.2.len, phStr p.1⟩)

/-- After `replacements.sort((a, b) => b.start - a.start)` and the splice
loop. -/
def splicedOf (html : Str) : Str :=
  spliceAll ((replsOf html).insertionSort (fun a b => b.start ≤ a.start)) html

/-- The final marker pass: find the placeholders, sort by index descending,
replace each with `\n__TABLE_MARKER_i__\n`. -/
def processedOf (html : Str) : Str :=
  ((execPh (splicedOf html)).insertionSort (fun a b => b.1 ≤ a.1)).foldl
    (fun acc p => acc.take p.1 ++ markerStr p.2.2 ++ acc.drop (p.1 + p.2.1))
    (splicedOf html)

/-- `WordGenerator.extractAndReplaceTables`. -/
def extractAndReplaceTables (htmlContent : Str) : Str × List TablePlaceholder :=
  (processedOf htmlContent, tablePlaceholdersOf htmlContent)

/-! ### Scanner lemmas -/

theorem charOfNat_toNat (n : Nat) (h : n < 0xd800) : (Char.ofNat n).toNat = n := by
  unfold Char.ofNat
  rw [dif_pos]
  · rfl
  · exact Or.inl (by exact_mod_cast h)

theorem lowerAscii_ne_lt (c : Char) (h : c ≠ '<') : lowerAscii c ≠ '<' := by
  unfold lowerAscii
  split
  · rename_i hc
    intro he
    have h2 := congrArg Char.toNat he
    rw [charOfNat_toNat _ (by omega)] at h2
    have h60 : ('<' : Char).toNat = 60 := rfl
    rw [h60] at h2
    omega
  · exact h

theorem ciEq_lt_false (c : Char) (h : c ≠ '<') : ciEq '<' c = false := by
  unfold ciEq
  exact decide_eq_false (fun he => (lowerAscii_ne_lt c h) he.symm)

theorem matchLitCi_lt_head (p : Str) (c : Char) (cs : Str) (h : c ≠ '<') :
    matchLitCi ('<' :: p) (c :: cs) = none := by
  show (if ciEq '<' c then matchLitCi p cs else none) = none
  rw [ciEq_lt_false c h]
  rfl

theorem matchLitCi_self_append (p r : Str) : matchLitCi p (p ++ r) = some r := by
  induction p with
  | nil => rfl
  | cons c cs ih =>
    show (if ciEq c c then matchLitCi cs (cs ++ r) else none) = some r
    rw [show ciEq c c = true from by simp [ciEq], ih]
    rfl

theorem matchDivOpen_not_lt (c : Char) (cs : Str) (h : c ≠ '<') :
    matchDivOpen (c :: cs) = none := by
  unfold matchDivOpen
  rw [show s2l "<div" = '<' :: s2l "div" from rfl,
    matchLitCi_lt_head (s2l "div") c cs h]

theorem matchTableOpen_not_lt (c : Char) (cs : Str) (h : c ≠ '<') :
    matchTableOpen (c :: cs) = none := by
  unfold matchTableOpen
  rw [show s2l "<table" = '<' :: s2l "table" from rfl,
    matchLitCi_lt_head (s2l "table") c cs h]

theorem matchDivOpen_ltT (rest : Str) : matchDivOpen ('<' :: 't' :: rest) = none := rfl

theorem matchDivOpen_ltSlash (rest : Str) : matchDivOpen ('<' :: '/' :: rest) = none := rfl

theorem matchTableOpen_ltD (rest : Str) : matchTableOpen ('<' :: 'd' :: rest) = none := rfl

theorem matchTableOpen_ltSlash (rest : Str) : matchTableOpen ('<' :: '/' :: rest) = none := rfl

/-- Strings with no `'<'`: the table/div scanners skip them. -/
def noLt (s : Str) : Prop := ∀ c ∈ s, c ≠ '<'

theorem findLitCi_shift (p s r : Str) (hs : noLt s) :
    findLitCi ('<' :: p) (s ++ r) =
      (findLitCi ('<' :: p) r).map (fun q => (q.1 + s.length, q.2)) := by
  induction s with
  | nil =>
    cases h : findLitCi ('<' :: p) r with
    | none => simp [h]
    | some q => simp [h]
  | cons c cs ih =>
    rw [List.cons_append, findLitCi,
      matchLitCi_lt_head p c _ (hs c (List.mem_cons_self c cs)),
      ih (fun x hx => hs x (List.mem_cons_of_mem c hx))]
    cases h : findLitCi ('<' :: p) r with
    | none => rfl
    | some q =>
      cases q with
      | mk i rr => simp [List.length_cons]; omega

theorem findTableThenClose_shift (s r : Str) (hs : noLt s) :
    findTableThenClose (s ++ r) =
      (findTableThenClose r).map (fun q => (q.1 + s.length, q.2.1, q.2.2.1, q.2.2.2)) := by
  induction s with
  | nil =>
    cases h : findTableThenClose r with
    | none => simp [h]
    | some q => simp [h]
  | cons c cs ih =>
    rw [List.cons_append, findTableThenClose,
      matchTableOpen_not_lt c _ (hs c (List.mem_cons_self c cs)),
      ih (fun x hx => hs x (List.mem_cons_of_mem c hx))]
    cases h : findTableThenClose r with
    | none => rfl
    | some q =>
      obtain ⟨i, tl, j, rr⟩ := q
      simp [List.length_cons]
      omega

/-! ### The structured-HTML family for the amended claim

The amended claim is proved for HTML that is a concatenation of segments:
free text, single-table `table-container` divs, and bare tables, where the
text and the table bodies contain neither `'<'` (no stray tags) nor `'_'`
(no placeholder look-alikes). -/

inductive Seg where
  | txt (s : Str)
  | wrapped (b : Str)
  | bare (b : Str)
  deriving DecidableEq

/-- The HTML of one segment. -/
def segHtml : Seg → Str
  | .txt s => s
  | .wrapped b => s2l "<div class=\"table-container\"><table>" ++ (b ++ s2l "</table></div>")
  | .bare b => s2l "<table>" ++ (b ++ s2l "</table>")

/-- The HTML of a segment list. -/
def segsHtml : List Seg → Str
  | [] => []
  | sg :: r => segHtml sg ++ segsHtml r

/-- Characters allowed in free text and table bodies. -/
def cleanChar (c : Char) : Bool := c ≠ '<' && c ≠ '_'

/-- Free text / table bodies are tag- and underscore-free. -/
def SegOk : Seg → Prop
  | .txt s => ∀ c ∈ s, cleanChar c = true
  | .wrapped b => ∀ c ∈ b, cleanChar c = true
  | .bare b => ∀ c ∈ b, cleanChar c = true

def SegsOk (l : List Seg) : Prop := ∀ sg ∈ l, SegOk sg

def wrappedLen (b : Str) : Nat := 50 + b.length
def bareLen (b : Str) : Nat := 15 + b.length

/-- `<table>` + body + `</table>`. -/
def tableOf (b : Str) : Str := s2l "<table>" ++ (b ++ s2l "</table>")

/-- Expected wrapped-regex matches. -/
def expWrapped : List Seg → Nat → List RMatch
  | [], _ => []
  | .txt s :: r, pos => expWrapped r (pos + s.length)
  | .wrapped b :: r, pos =>
    ⟨pos, wrappedLen b, tableOf b⟩ :: expWrapped r (pos + wrappedLen b)
  | .bare b :: r, pos => expWrapped r (pos + bareLen b)

/-- Expected plain-regex matches (wrapped tables included, at offset 29). -/
def expPlain : List Seg → Nat → List RMatch
  | [], _ => []
  | .txt s :: r, pos => expPlain r (pos + s.length)
  | .wrapped b :: r, pos =>
    ⟨pos + 29, bareLen b, tableOf b⟩ :: expPlain r (pos + wrappedLen b)
  | .bare b :: r, pos => ⟨pos, bareLen b, tableOf b⟩ :: expPlain r (pos + bareLen b)

/-- Expected plain matches surviving the range filter: the bare tables. -/
def expBare : List Seg → Nat → List RMatch
  | [], _ => []
  | .txt s :: r, pos => expBare r (pos + s.length)
  | .wrapped b :: r, pos => expBare r (pos + wrappedLen b)
  | .bare b :: r, pos => ⟨pos, bareLen b, tableOf b⟩ :: expBare r (pos + bareLen b)

theorem segHtml_wrapped_length (b : Str) : (segHtml (.wrapped b)).length = wrappedLen b := by
  simp [segHtml, wrappedLen, s2l]
  omega

theorem segHtml_bare_length (b : Str) : (segHtml (.bare b)).length = bareLen b := by
  simp [segHtml, bareLen, s2l]
  omega

theorem tableOf_length (b : Str) : (tableOf b).length = bareLen b := by
  simp [tableOf, bareLen, s2l]
  omega

/-- `takeWhile`/`dropWhile` through a satisfying prefix up to a failing
head. -/
theorem takeWhile_middle (p : Char → Bool) (a : Str) (c : Char) (y : Str)
    (ha : ∀ x ∈ a, p x = true) (hc : p c = false) :
    (a ++ c :: y).takeWhile p = a ∧ (a ++ c :: y).dropWhile p = c :: y := by
  induction a with
  | nil => simp [List.takeWhile, List.dropWhile, hc]
  | cons d ds ih =>
    have hd : p d = true := ha d (List.mem_cons_self d ds)
    obtain ⟨h1, h2⟩ := ih (fun x hx => ha x (List.mem_cons_of_mem d hx))
    constructor
    · rw [List.cons_append, List.takeWhile_cons, hd]
      simp [h1]
    · rw [List.cons_append, List.dropWhile_cons, hd]
      simp [h2]

/-- Positions at which `matchDivOpen` can never match: characters other
than `'<'`, and `'<'` followed by `'t'` or `'/'`. -/
inductive InertW : Str → Prop
  | nil : InertW []
  | notLt {c : Char} {J : Str} : c ≠ '<' → InertW J → InertW (c :: J)
  | ltT {J : Str} : InertW J → InertW ('<' :: 't' :: J)
  | ltSlash {J : Str} : InertW J → InertW ('<' :: '/' :: J)

theorem inertW_append {a b : Str} (ha : InertW a) (hb : InertW b) : InertW (a ++ b) := by
  induction ha with
  | nil => exact hb
  | notLt h _ ih => exact InertW.notLt h ih
  | ltT _ ih => exact InertW.ltT ih
  | ltSlash _ ih => exact InertW.ltSlash ih

theorem inertW_clean {s : Str} (hs : noLt s) : InertW s := by
  induction s with
  | nil => exact InertW.nil
  | cons c cs ih =>
    exact InertW.notLt (hs c (List.mem_cons_self c cs))
      (ih (fun x hx => hs x (List.mem_cons_of_mem c hx)))

theorem noLt_of_clean {s : Str} (hs : ∀ c ∈ s, cleanChar c = true) : noLt s := by
  intro c hc
  have := hs c hc
  unfold cleanChar at this
  simp only [Bool.and_eq_true, decide_eq_true_eq] at this
  exact this.1

theorem inertW_bare (b rest : Str) (hb : noLt b) (hrest : InertW rest) :
    InertW (segHtml (.bare b) ++ rest) := by
  have h1 : segHtml (.bare b) ++ rest =
      '<' :: 't' :: (s2l "able>" ++ (b ++ ('<' :: '/' :: (s2l "table>" ++ rest)))) := by
    simp [segHtml, s2l, List.append_assoc]
  rw [h1]
  exact InertW.ltT (inertW_append (inertW_clean (by unfold noLt; decide))
    (inertW_append (inertW_clean hb) (InertW.ltSlash
      (inertW_append (inertW_clean (by unfold noLt; decide)) hrest))))

/-! ### Head computations of the scanners on family segments -/

theorem matchLitCi_cons_self_append (c : Char) (p x : Str) :
    matchLitCi (c :: p) (c :: (p ++ x)) = some x :=
  matchLitCi_self_append (c :: p) x

theorem matchTableOpen_at (b rest : Str) :
    matchTableOpen (s2l "<table>" ++ (b ++ rest)) = some (b ++ rest) := by
  unfold matchTableOpen
  rw [show s2l "<table>" ++ (b ++ rest) = s2l "<table" ++ ('>' :: (b ++ rest)) from rfl,
    matchLitCi_self_append]
  rfl

theorem findLitCi_at_head (p x : Str) :
    findLitCi ('<' :: p) (('<' :: p) ++ x) = some (0, x) := by
  rw [List.cons_append, findLitCi, matchLitCi_cons_self_append]

theorem findLitCi_clean_head (p b x : Str) (hb : noLt b) :
    findLitCi ('<' :: p) (b ++ (('<' :: p) ++ x)) = some (b.length, x) := by
  rw [findLitCi_shift p b _ hb, findLitCi_at_head]
  simp

theorem findTTC_cons_none (c : Char) (cs : Str) (h : matchTableOpen (c :: cs) = none) :
    findTableThenClose (c :: cs) =
      (findTableThenClose cs).map (fun q => (q.1 + 1, q.2.1, q.2.2.1, q.2.2.2)) := by
  rw [findTableThenClose, h]
  cases hq : findTableThenClose cs with
  | none => rfl
  | some q =>
    obtain ⟨i, tl, j, r⟩ := q
    rfl

theorem findTTC_step (c : Char) (cs r r2 : Str) (j : Nat)
    (hm : matchTableOpen (c :: cs) = some r)
    (hf : findLitCi (s2l "</table>") r = some (j, r2)) :
    findTableThenClose (c :: cs) = some (0, (c :: cs).length - r.length, j, r2) := by
  rw [findTableThenClose, hm]
  dsimp only
  rw [hf]

theorem findTTC_at_table (b rest : Str) (hb : noLt b) :
    findTableThenClose (tableOf b ++ rest) = some (0, 7, b.length, rest) := by
  have h1 : tableOf b ++ rest =
      '<' :: ('t' :: (s2l "able>" ++ (b ++ (s2l "</table>" ++ rest)))) := by
    simp [tableOf, s2l, List.append_assoc]
  have hm : matchTableOpen (tableOf b ++ rest) = some (b ++ (s2l "</table>" ++ rest)) := by
    rw [show tableOf b ++ rest = s2l "<table>" ++ (b ++ (s2l "</table>" ++ rest)) from by
      simp [tableOf, List.append_assoc]]
    exact matchTableOpen_at b (s2l "</table>" ++ rest)
  have hf : findLitCi (s2l "</table>") (b ++ (s2l "</table>" ++ rest)) =
      some (b.length, rest) :=
    findLitCi_clean_head (s2l "/table>") b rest hb
  rw [h1] at hm ⊢
  rw [findTTC_step _ _ _ _ _ hm hf]
  have hl : ('<' :: ('t' :: (s2l "able>" ++ (b ++ (s2l "</table>" ++ rest))))).length -
      (b ++ (s2l "</table>" ++ rest)).length = 7 := by
    simp [s2l]
    omega
  rw [hl]

theorem findTTC_at_wrapped (b rest : Str) (hb : noLt b) :
    findTableThenClose (segHtml (.wrapped b) ++ rest) =
      some (29, 7, b.length, s2l "</div>" ++ rest) := by
  have h1 : segHtml (.wrapped b) ++ rest =
      '<' :: 'd' :: (s2l "iv class=\"table-container\">" ++
        (tableOf b ++ (s2l "</div>" ++ rest))) := by
    simp [segHtml, tableOf, s2l, List.append_assoc]
  rw [h1, findTTC_cons_none _ _ (matchTableOpen_ltD _),
    show ('d' : Char) :: (s2l "iv class=\"table-container\">" ++
        (tableOf b ++ (s2l "</div>" ++ rest))) =
      ('d' :: s2l "iv class=\"table-container\">") ++
        (tableOf b ++ (s2l "</div>" ++ rest)) from rfl,
    findTableThenClose_shift _ _ (by unfold noLt; decide),
    findTTC_at_table b (s2l "</div>" ++ rest) hb]
  simp [s2l]

theorem matchDivOpen_at (b rest : Str) :
    matchDivOpen (segHtml (.wrapped b) ++ rest) =
      some (tableOf b ++ (s2l "</div>" ++ rest)) := by
  unfold matchDivOpen
  rw [show segHtml (.wrapped b) ++ rest =
      s2l "<div" ++ (s2l " class=\"table-container\"" ++
        ('>' :: (tableOf b ++ (s2l "</div>" ++ rest)))) from by
    simp [segHtml, tableOf, s2l, List.append_assoc]]
  rw [matchLitCi_self_append]
  dsimp only
  obtain ⟨ht, hd⟩ := takeWhile_middle (fun c => decide (c ≠ '>'))
    (s2l " class=\"table-container\"") '>' (tableOf b ++ (s2l "</div>" ++ rest))
    (by decide) (by decide)
  rw [ht, hd, show hasClassTC (s2l " class=\"table-container\"") = true from by decide]
  simp

theorem matchWrappedAt_at (b rest : Str) (hb : noLt b) :
    matchWrappedAt (segHtml (.wrapped b) ++ rest) = some (wrappedLen b, tableOf b) := by
  unfold matchWrappedAt
  rw [matchDivOpen_at b rest]
  dsimp only
  rw [findTTC_at_table b (s2l "</div>" ++ rest) hb]
  dsimp only
  rw [show findLitCi (s2l "</div>") (s2l "</div>" ++ rest) = some (0, rest) from
    findLitCi_at_head (s2l "/div>") rest]
  dsimp only
  have hlen : (segHtml (.wrapped b) ++ rest).length - rest.length = wrappedLen b := by
    rw [List.length_append, segHtml_wrapped_length]
    omega
  rw [hlen]
  have htake : (segHtml (.wrapped b) ++ rest).take (wrappedLen b) = segHtml (.wrapped b) := by
    rw [← segHtml_wrapped_length b]
    exact List.take_left _ _
  rw [htake]
  have hfull : findTableThenClose (segHtml (.wrapped b)) =
      some (29, 7, b.length, s2l "</div>") := by
    conv_lhs => rw [← List.append_nil (segHtml (.wrapped b))]
    rw [findTTC_at_wrapped b [] hb]
    simp
  rw [hfull]
  dsimp only
  have hdrop : (segHtml (.wrapped b)).drop 29 = tableOf b ++ s2l "</div>" := by
    rw [show segHtml (.wrapped b) =
        s2l "<div class=\"table-container\">" ++ (tableOf b ++ s2l "</div>") from by
      simp [segHtml, tableOf, s2l, List.append_assoc]]
    rw [show (29 : Nat) = (s2l "<div class=\"table-container\">").length from by decide]
    exact List.drop_left _ _
  rw [hdrop, show 7 + b.length + 8 = (tableOf b).length from by
    rw [tableOf_length]; unfold bareLen; omega]
  rw [List.take_left]

theorem matchWrappedAt_not_lt (c : Char) (cs : Str) (h : c ≠ '<') :
    matchWrappedAt (c :: cs) = none := by
  unfold matchWrappedAt
  rw [matchDivOpen_not_lt c cs h]

theorem matchWrappedAt_ltT (r : Str) : matchWrappedAt ('<' :: 't' :: r) = none := rfl

theorem matchWrappedAt_ltSlash (r : Str) : matchWrappedAt ('<' :: '/' :: r) = none := rfl

/-! ### The wrapped-pass exec loop over the family -/

theorem execWrappedAux_nil (fuel pos : Nat) : execWrappedAux fuel [] pos = [] := by
  cases fuel <;> rfl

theorem execWrappedAux_skip (J : Str) (hJ : InertW J) :
    ∀ (fuel : Nat) (x : Str) (pos : Nat), J.length ≤ fuel →
      execWrappedAux fuel (J ++ x) pos =
        execWrappedAux (fuel - J.length) x (pos + J.length) := by
  induction hJ with
  | nil =>
    intro fuel x pos _
    simp
  | @notLt c J hne _ ih =>
    intro fuel x pos hf
    simp only [List.length_cons] at hf ⊢
    cases fuel with
    | zero => omega
    | succ f =>
      rw [List.cons_append, execWrappedAux, matchWrappedAt_not_lt c _ hne]
      dsimp only
      rw [ih f x (pos + 1) (by omega)]
      have e1 : f + 1 - (J.length + 1) = f - J.length := by omega
      have e2 : pos + (J.length + 1) = pos + 1 + J.length := by omega
      rw [e1, e2]
  | @ltT J _ ih =>
    intro fuel x pos hf
    simp only [List.length_cons] at hf ⊢
    cases fuel with
    | zero => omega
    | succ f =>
      cases f with
      | zero => omega
      | succ f2 =>
        simp only [List.cons_append]
        rw [execWrappedAux, matchWrappedAt_ltT]
        dsimp only
        rw [execWrappedAux, matchWrappedAt_not_lt 't' _ (by decide)]
        dsimp only
        rw [ih f2 x (pos + 1 + 1) (by omega)]
        have e1 : f2 + 1 + 1 - (J.length + 1 + 1) = f2 - J.length := by omega
        have e2 : pos + (J.length + 1 + 1) = pos + 1 + 1 + J.length := by omega
        rw [e1, e2]
  | @ltSlash J _ ih =>
    intro fuel x pos hf
    simp only [List.length_cons] at hf ⊢
    cases fuel with
    | zero => omega
    | succ f =>
      cases f with
      | zero => omega
      | succ f2 =>
        simp only [List.cons_append]
        rw [execWrappedAux, matchWrappedAt_ltSlash]
        dsimp only
        rw [execWrappedAux, matchWrappedAt_not_lt '/' _ (by decide)]
        dsimp only
        rw [ih f2 x (pos + 1 + 1) (by omega)]
        have e1 : f2 + 1 + 1 - (J.length + 1 + 1) = f2 - J.length := by omega
        have e2 : pos + (J.length + 1 + 1) = pos + 1 + 1 + J.length := by omega
        rw [e1, e2]

theorem execWrappedAux_step_match (fuel pos : Nat) (s : Str) (m : Nat × Str)
    (hm : matchWrappedAt s = some m) :
    execWrappedAux (fuel + 1) s pos =
      ⟨pos, m.1, m.2⟩ :: execWrappedAux fuel (s.drop m.1) (pos + m.1) := by
  cases s with
  | nil =>
    rw [show matchWrappedAt ([] : Str) = none from rfl] at hm
    cases hm
  | cons c cs =>
    rw [execWrappedAux, hm]

theorem execWrappedAux_segs (l : List Seg) :
    ∀ (fuel pos : Nat), SegsOk l → (segsHtml l).length ≤ fuel →
      execWrappedAux fuel (segsHtml l) pos = expWrapped l pos := by
  induction l with
  | nil =>
    intro fuel pos _ _
    exact execWrappedAux_nil fuel pos
  | cons sg r ih =>
    intro fuel pos hok hf
    have hokr : SegsOk r := fun s hs => hok s (List.mem_cons_of_mem _ hs)
    cases sg with
    | txt s =>
      have hcl : noLt s := noLt_of_clean (hok _ (List.mem_cons_self _ _))
      have hf' : s.length + (segsHtml r).length ≤ fuel := by
        rw [← List.length_append]
        exact hf
      rw [show segsHtml (.txt s :: r) = s ++ segsHtml r from rfl,
        execWrappedAux_skip s (inertW_clean hcl) fuel _ pos (by omega),
        ih (fuel - s.length) (pos + s.length) hokr (by omega)]
      rfl
    | bare b =>
      have hcl : noLt b := noLt_of_clean (hok _ (List.mem_cons_self _ _))
      have hin : InertW (segHtml (.bare b)) := by
        have h := inertW_bare b [] hcl InertW.nil
        rwa [List.append_nil] at h
      have hf' : (segHtml (.bare b)).length + (segsHtml r).length ≤ fuel := by
        rw [← List.length_append]
        exact hf
      rw [show segsHtml (.bare b :: r) = segHtml (.bare b) ++ segsHtml r from rfl,
        execWrappedAux_skip _ hin fuel _ pos (by omega),
        ih _ _ hokr (by omega), segHtml_bare_length]
      rfl
    | wrapped b =>
      have hcl : noLt b := noLt_of_clean (hok _ (List.mem_cons_self _ _))
      have hf' : wrappedLen b + (segsHtml r).length ≤ fuel := by
        have h2 := hf
        rw [show segsHtml (.wrapped b :: r) = segHtml (.wrapped b) ++ segsHtml r from rfl,
          List.length_append, segHtml_wrapped_length] at h2
        exact h2
      obtain ⟨f, rfl⟩ : ∃ f, fuel = f + 1 :=
        ⟨fuel - 1, by unfold wrappedLen at hf'; omega⟩
      rw [show segsHtml (.wrapped b :: r) = segHtml (.wrapped b) ++ segsHtml r from rfl,
        execWrappedAux_step_match f pos _ (wrappedLen b, tableOf b)
          (matchWrappedAt_at b (segsHtml r) hcl)]
      dsimp only
      have hdrop : (segHtml (.wrapped b) ++ segsHtml r).drop (wrappedLen b) = segsHtml r := by
        rw [← segHtml_wrapped_length b]
        exact List.drop_left _ _
      rw [hdrop, ih f (pos + wrappedLen b) hokr (by unfold wrappedLen at hf'; omega)]
      rfl

theorem execWrapped_family (l : List Seg) (hok : SegsOk l) :
    execWrapped (segsHtml l) = expWrapped l 0 :=
  execWrappedAux_segs l (segsHtml l).length 0 hok (Nat.le_refl _)

/-! ### The plain-pass exec loop over the family -/

theorem findTTC_divclose (x : Str) :
    findTableThenClose (s2l "</div>" ++ x) =
      (findTableThenClose x).map (fun q => (q.1 + 6, q.2)) := by
  rw [show s2l "</div>" ++ x = '<' :: (s2l "/div>" ++ x) from rfl,
    findTTC_cons_none '<' (s2l "/div>" ++ x) (matchTableOpen_ltSlash (s2l "div>" ++ x)),
    findTableThenClose_shift (s2l "/div>") x (by unfold noLt; decide)]
  cases hq : findTableThenClose x with
  | none => rfl
  | some q =>
    obtain ⟨i, tl, j, rr⟩ := q
    simp [s2l]

theorem execPlainAux_shift_gen (J : Str) (k : Nat) (hk : J.length = k)
    (hJ : ∀ y, findTableThenClose (J ++ y) =
      (findTableThenClose y).map (fun q => (q.1 + k, q.2))) :
    ∀ (x : Str) (fuel pos : Nat),
      execPlainAux fuel (J ++ x) pos = execPlainAux fuel x (pos + k) := by
  intro x fuel pos
  cases fuel with
  | zero => rfl
  | succ f =>
    rw [execPlainAux, execPlainAux, hJ x]
    cases hq : findTableThenClose x with
    | none => rfl
    | some q =>
      obtain ⟨i, tl, j, rest⟩ := q
      dsimp only [Option.map]
      have hd : (J ++ x).drop (i + k) = x.drop i := by
        rw [← hk, Nat.add_comm i J.length, List.drop_append]
      have e1 : pos + (i + k) = pos + k + i := by omega
      rw [hd, e1]

theorem execPlainAux_clean_shift (s : Str) (hs : noLt s) (x : Str) (fuel pos : Nat) :
    execPlainAux fuel (s ++ x) pos = execPlainAux fuel x (pos + s.length) :=
  execPlainAux_shift_gen s s.length rfl (fun y => findTableThenClose_shift s y hs) x fuel pos

theorem execPlainAux_divclose (x : Str) (fuel pos : Nat) :
    execPlainAux fuel (s2l "</div>" ++ x) pos = execPlainAux fuel x (pos + 6) :=
  execPlainAux_shift_gen (s2l "</div>") 6 (by decide) findTTC_divclose x fuel pos

theorem execPlainAux_wrapped (b x : Str) (hb : noLt b) (fuel pos : Nat) :
    execPlainAux (fuel + 1) (segHtml (.wrapped b) ++ x) pos =
      ⟨pos + 29, bareLen b, tableOf b⟩ ::
        execPlainAux fuel (s2l "</div>" ++ x) (pos + 29 + bareLen b) := by
  rw [execPlainAux, findTTC_at_wrapped b x hb]
  dsimp only
  have hdrop : (segHtml (.wrapped b) ++ x).drop 29 = tableOf b ++ (s2l "</div>" ++ x) := by
    rw [show segHtml (.wrapped b) ++ x =
        s2l "<div class=\"table-container\">" ++ (tableOf b ++ (s2l "</div>" ++ x)) from by
      simp [segHtml, tableOf, s2l, List.append_assoc],
      show (29 : Nat) = (s2l "<div class=\"table-container\">").length from by decide]
    exact List.drop_left _ _
  rw [hdrop, show 7 + b.length + 8 = (tableOf b).length from by
      rw [tableOf_length]; unfold bareLen; omega,
    List.take_left, tableOf_length]

theorem execPlainAux_bare (b x : Str) (hb : noLt b) (fuel pos : Nat) :
    execPlainAux (fuel + 1) (segHtml (.bare b) ++ x) pos =
      ⟨pos, bareLen b, tableOf b⟩ :: execPlainAux fuel x (pos + bareLen b) := by
  rw [show segHtml (.bare b) = tableOf b from rfl, execPlainAux, findTTC_at_table b x hb]
  dsimp only
  rw [List.drop_zero, show 7 + b.length + 8 = (tableOf b).length from by
      rw [tableOf_length]; unfold bareLen; omega,
    List.take_left, tableOf_length, Nat.add_zero]

/-- Number of table segments: the number of regex matches still to come. -/
def tCount : List Seg → Nat
  | [] => 0
  | .txt _ :: r => tCount r
  | .wrapped _ :: r => tCount r + 1
  | .bare _ :: r => tCount r + 1

theorem execPlainAux_segs (l : List Seg) :
    ∀ (fuel pos : Nat), SegsOk l → tCount l ≤ fuel →
      execPlainAux fuel (segsHtml l) pos = expPlain l pos := by
  induction l with
  | nil =>
    intro fuel pos _ _
    cases fuel <;> rfl
  | cons sg r ih =>
    intro fuel pos hok hf
    have hokr : SegsOk r := fun s hs => hok s (List.mem_cons_of_mem _ hs)
    cases sg with
    | txt s =>
      have hcl : noLt s := noLt_of_clean (hok _ (List.mem_cons_self _ _))
      rw [show segsHtml (.txt s :: r) = s ++ segsHtml r from rfl,
        execPlainAux_clean_shift s hcl _ fuel pos,
        ih fuel (pos + s.length) hokr hf]
      rfl
    | wrapped b =>
      have hcl : noLt b := noLt_of_clean (hok _ (List.mem_cons_self _ _))
      have hf' : tCount r + 1 ≤ fuel := hf
      obtain ⟨f, rfl⟩ : ∃ f, fuel = f + 1 := ⟨fuel - 1, by omega⟩
      rw [show segsHtml (.wrapped b :: r) = segHtml (.wrapped b) ++ segsHtml r from rfl,
        execPlainAux_wrapped b _ hcl f pos,
        execPlainAux_divclose _ f _,
        ih f _ hokr (by omega),
        show pos + 29 + bareLen b + 6 = pos + wrappedLen b from by
          unfold bareLen wrappedLen; omega]
      rfl
    | bare b =>
      have hcl : noLt b := noLt_of_clean (hok _ (List.mem_cons_self _ _))
      have hf' : tCount r + 1 ≤ fuel := hf
      obtain ⟨f, rfl⟩ : ∃ f, fuel = f + 1 := ⟨fuel - 1, by omega⟩
      rw [show segsHtml (.bare b :: r) = segHtml (.bare b) ++ segsHtml r from rfl,
        execPlainAux_bare b _ hcl f pos,
        ih f _ hokr (by omega)]
      rfl

theorem tCount_le_len (l : List Seg) : tCount l ≤ (segsHtml l).length := by
  induction l with
  | nil => exact Nat.le_refl 0
  | cons sg r ih =>
    cases sg with
    | txt s =>
      have h : (segsHtml (.txt s :: r)).length = s.length + (segsHtml r).length := by
        rw [show segsHtml (.txt s :: r) = s ++ segsHtml r from rfl, List.length_append]
      have h2 : tCount (.txt s :: r) = tCount r := rfl
      omega
    | wrapped b =>
      have h : (segsHtml (.wrapped b :: r)).length = wrappedLen b + (segsHtml r).length := by
        rw [show segsHtml (.wrapped b :: r) = segHtml (.wrapped b) ++ segsHtml r from rfl,
          List.length_append, segHtml_wrapped_length]
      have h2 : tCount (.wrapped b :: r) = tCount r + 1 := rfl
      unfold wrappedLen at h
      omega
    | bare b =>
      have h : (segsHtml (.bare b :: r)).length = bareLen b + (segsHtml r).length := by
        rw [show segsHtml (.bare b :: r) = segHtml (.bare b) ++ segsHtml r from rfl,
          List.length_append, segHtml_bare_length]
      have h2 : tCount (.bare b :: r) = tCount r + 1 := rfl
      unfold bareLen at h
      omega

theorem execPlain_family (l : List Seg) (hok : SegsOk l) :
    execPlain (segsHtml l) = expPlain l 0 :=
  execPlainAux_segs l (segsHtml l).length 0 hok (tCount_le_len l)

/-! ### The `processedRanges` filter over the family -/

theorem expWrapped_start_ge (l : List Seg) :
    ∀ (p : Nat) (w : RMatch), w ∈ expWrapped l p → p ≤ w.start := by
  induction l with
  | nil =>
    intro p w hw
    cases hw
  | cons sg r ih =>
    intro p w hw
    cases sg with
    | txt s =>
      have := ih (p + s.length) w hw
      omega
    | wrapped b =>
      rcases List.mem_cons.mp hw with h | h
      · rw [h]
      · have := ih (p + wrappedLen b) w h
        omega
    | bare b =>
      have := ih (p + bareLen b) w hw
      omega

theorem filter_pred (l : List Seg) :
    ∀ (p : Nat) (W : List RMatch), (∀ w ∈ W, w.start + w.len ≤ p) →
      (expPlain l p).filter (fun m =>
        !((W ++ expWrapped l p).any
          (fun w => w.start ≤ m.start && m.start < w.start + w.len))) =
      expBare l p := by
  induction l with
  | nil =>
    intro p W _
    rfl
  | cons sg r ih =>
    intro p W hW
    cases sg with
    | txt s =>
      exact ih (p + s.length) W (fun w hw => le_trans (hW w hw) (Nat.le_add_right _ _))
    | wrapped b =>
      rw [show expPlain (.wrapped b :: r) p =
          ⟨p + 29, bareLen b, tableOf b⟩ :: expPlain r (p + wrappedLen b) from rfl,
        show expWrapped (.wrapped b :: r) p =
          ⟨p, wrappedLen b, tableOf b⟩ :: expWrapped r (p + wrappedLen b) from rfl,
        show expBare (.wrapped b :: r) p = expBare r (p + wrappedLen b) from rfl]
      have hany : ((W ++ (⟨p, wrappedLen b, tableOf b⟩ :: expWrapped r (p + wrappedLen b))).any
          (fun w => w.start ≤ p + 29 && p + 29 < w.start + w.len)) = true := by
        apply List.any_eq_true.mpr
        refine ⟨⟨p, wrappedLen b, tableOf b⟩,
          List.mem_append_right _ (List.mem_cons_self _ _), ?_⟩
        simp only [Bool.and_eq_true, decide_eq_true_eq]
        unfold wrappedLen
        omega
      rw [List.filter_cons]
      dsimp only
      rw [hany]
      simp only [Bool.not_true, Bool.false_eq_true, if_false]
      have hW' : ∀ w ∈ W ++ [(⟨p, wrappedLen b, tableOf b⟩ : RMatch)],
          w.start + w.len ≤ p + wrappedLen b := by
        intro w hw
        rcases List.mem_append.mp hw with h | h
        · exact le_trans (hW w h) (Nat.le_add_right _ _)
        · rw [List.mem_singleton.mp h]
      have h := ih (p + wrappedLen b) (W ++ [⟨p, wrappedLen b, tableOf b⟩]) hW'
      rw [show (W ++ [(⟨p, wrappedLen b, tableOf b⟩ : RMatch)]) ++
          expWrapped r (p + wrappedLen b) =
          W ++ (⟨p, wrappedLen b, tableOf b⟩ :: expWrapped r (p + wrappedLen b)) from by
        simp] at h
      exact h
    | bare b =>
      rw [show expPlain (.bare b :: r) p =
          ⟨p, bareLen b, tableOf b⟩ :: expPlain r (p + bareLen b) from rfl,
        show expWrapped (.bare b :: r) p = expWrapped r (p + bareLen b) from rfl,
        show expBare (.bare b :: r) p =
          ⟨p, bareLen b, tableOf b⟩ :: expBare r (p + bareLen b) from rfl]
      have hany : ((W ++ expWrapped r (p + bareLen b)).any
          (fun w => w.start ≤ p && p < w.start + w.len)) = false := by
        rw [Bool.eq_false_iff]
        intro h
        obtain ⟨w, hw, hcond⟩ := List.any_eq_true.mp h
        simp only [Bool.and_eq_true, decide_eq_true_eq] at hcond
        rcases List.mem_append.mp hw with h2 | h2
        · have := hW w h2
          omega
        · have := expWrapped_start_ge r (p + bareLen b) w h2
          have hb15 : 15 ≤ bareLen b := by unfold bareLen; omega
          omega
      rw [List.filter_cons]
      dsimp only
      rw [hany]
      simp only [Bool.not_false, if_true]
      rw [ih (p + bareLen b) W (fun w hw => le_trans (hW w hw) (Nat.le_add_right _ _))]

theorem keptPlain_family (l : List Seg) (hok : SegsOk l) :
    keptPlain (segsHtml l) = expBare l 0 := by
  unfold keptPlain
  rw [execPlain_family l hok, execWrapped_family l hok]
  have h := filter_pred l 0 [] (fun w hw => absurd hw (List.not_mem_nil w))
  rw [List.nil_append] at h
  exact h

/-! ### Enumeration: the `replacements` and `tablePlaceholders` arrays -/

/-- Number of wrapped-table segments (the index offset of the bare-table
placeholders). -/
def wCount : List Seg → Nat
  | [] => 0
  | .wrapped _ :: r => wCount r + 1
  | _ :: r => wCount r

/-- Expected replacements contributed by wrapped matches, `i` the next
placeholder index. -/
def expRepsW : List Seg → Nat → Nat → List Repl
  | [], _, _ => []
  | .txt s :: r, pos, i => expRepsW r (pos + s.length) i
  | .wrapped b :: r, pos, i =>
    ⟨pos, wrappedLen b, phStr i⟩ :: expRepsW r (pos + wrappedLen b) (i + 1)
  | .bare b :: r, pos, i => expRepsW r (pos + bareLen b) i

/-- Expected replacements contributed by kept plain matches. -/
def expRepsB : List Seg → Nat → Nat → List Repl
  | [], _, _ => []
  | .txt s :: r, pos, j => expRepsB r (pos + s.length) j
  | .wrapped b :: r, pos, j => expRepsB r (pos + wrappedLen b) j
  | .bare b :: r, pos, j =>
    ⟨pos, bareLen b, phStr j⟩ :: expRepsB r (pos + bareLen b) (j + 1)

/-- All expected replacements in document order, `i`/`j` the next
wrapped/bare placeholder indices. -/
def expReps : List Seg → Nat → Nat → Nat → List Repl
  | [], _, _, _ => []
  | .txt s :: r, pos, i, j => expReps r (pos + s.length) i j
  | .wrapped b :: r, pos, i, j =>
    ⟨pos, wrappedLen b, phStr i⟩ :: expReps r (pos + wrappedLen b) (i + 1) j
  | .bare b :: r, pos, i, j =>
    ⟨pos, bareLen b, phStr j⟩ :: expReps r (pos + bareLen b) i (j + 1)

/-- Expected placeholders of the wrapped tables. -/
def expPhsW : List Seg → Nat → List TablePlaceholder
  | [], _ => []
  | .txt _ :: r, i => expPhsW r i
  | .wrapped b :: r, i => ⟨phStr i, tableOf b⟩ :: expPhsW r (i + 1)
  | .bare _ :: r, i => expPhsW r i

/-- Expected placeholders of the bare tables. -/
def expPhsB : List Seg → Nat → List TablePlaceholder
  | [], _ => []
  | .txt _ :: r, j => expPhsB r j
  | .wrapped _ :: r, j => expPhsB r j
  | .bare b :: r, j => ⟨phStr j, tableOf b⟩ :: expPhsB r (j + 1)

theorem expWrapped_length (l : List Seg) :
    ∀ p, (expWrapped l p).length = wCount l := by
  induction l with
  | nil => intro p; rfl
  | cons sg r ih =>
    intro p
    cases sg with
    | txt s => exact ih (p + s.length)
    | wrapped b =>
      rw [show expWrapped (.wrapped b :: r) p =
          ⟨p, wrappedLen b, tableOf b⟩ :: expWrapped r (p + wrappedLen b) from rfl,
        List.length_cons, ih (p + wrappedLen b)]
      rfl
    | bare b => exact ih (p + bareLen b)

theorem enum_expWrapped (l : List Seg) :
    ∀ (p i : Nat), (List.enumFrom i (expWrapped l p)).map
      (fun q => (⟨q.2.start, q.2.len, phStr q.1⟩ : Repl)) = expRepsW l p i := by
  induction l with
  | nil => intro p i; rfl
  | cons sg r ih =>
    intro p i
    cases sg with
    | txt s => exact ih (p + s.length) i
    | wrapped b =>
      rw [show expWrapped (.wrapped b :: r) p =
          ⟨p, wrappedLen b, tableOf b⟩ :: expWrapped r (p + wrappedLen b) from rfl,
        List.enumFrom_cons, List.map_cons, ih (p + wrappedLen b) (i + 1)]
      rfl
    | bare b => exact ih (p + bareLen b) i

theorem enum_expBare (l : List Seg) :
    ∀ (p j : Nat), (List.enumFrom j (expBare l p)).map
      (fun q => (⟨q.2.start, q.2.len, phStr q.1⟩ : Repl)) = expRepsB l p j := by
  induction l with
  | nil => intro p j; rfl
  | cons sg r ih =>
    intro p j
    cases sg with
    | txt s => exact ih (p + s.length) j
    | wrapped b => exact ih (p + wrappedLen b) j
    | bare b =>
      rw [show expBare (.bare b :: r) p =
          ⟨p, bareLen b, tableOf b⟩ :: expBare r (p + bareLen b) from rfl,
        List.enumFrom_cons, List.map_cons, ih (p + bareLen b) (j + 1)]
      rfl

theorem enumPh_expWrapped (l : List Seg) :
    ∀ (p i : Nat), (List.enumFrom i (expWrapped l p)).map
      (fun q => (⟨phStr q.1, q.2.tableHtml⟩ : TablePlaceholder)) = expPhsW l i := by
  induction l with
  | nil => intro p i; rfl
  | cons sg r ih =>
    intro p i
    cases sg with
    | txt s => exact ih (p + s.length) i
    | wrapped b =>
      rw [show expWrapped (.wrapped b :: r) p =
          ⟨p, wrappedLen b, tableOf b⟩ :: expWrapped r (p + wrappedLen b) from rfl,
        List.enumFrom_cons, List.map_cons, ih (p + wrappedLen b) (i + 1)]
      rfl
    | bare b => exact ih (p + bareLen b) i

theorem enumPh_expBare (l : List Seg) :
    ∀ (p j : Nat), (List.enumFrom j (expBare l p)).map
      (fun q => (⟨phStr q.1, q.2.tableHtml⟩ : TablePlaceholder)) = expPhsB l j := by
  induction l with
  | nil => intro p j; rfl
  | cons sg r ih =>
    intro p j
    cases sg with
    | txt s => exact ih (p + s.length) j
    | wrapped b => exact ih (p + wrappedLen b) j
    | bare b =>
      rw [show expBare (.bare b :: r) p =
          ⟨p, bareLen b, tableOf b⟩ :: expBare r (p + bareLen b) from rfl,
        List.enumFrom_cons, List.map_cons, ih (p + bareLen b) (j + 1)]
      rfl

theorem replsOf_family (l : List Seg) (hok : SegsOk l) :
    replsOf (segsHtml l) = expRepsW l 0 0 ++ expRepsB l 0 (wCount l) := by
  unfold replsOf allMatches
  rw [execWrapped_family l hok, keptPlain_family l hok, List.enum_append,
    List.map_append,
    show List.enum (expWrapped l 0) = List.enumFrom 0 (expWrapped l 0) from rfl,
    enum_expWrapped l 0 0, expWrapped_length l 0, enum_expBare l 0 (wCount l)]

theorem tablePlaceholdersOf_family (l : List Seg) (hok : SegsOk l) :
    tablePlaceholdersOf (segsHtml l) = expPhsW l 0 ++ expPhsB l (wCount l) := by
  unfold tablePlaceholdersOf allMatches
  rw [execWrapped_family l hok, keptPlain_family l hok, List.enum_append,
    List.map_append,
    show List.enum (expWrapped l 0) = List.enumFrom 0 (expWrapped l 0) from rfl,
    enumPh_expWrapped l 0 0, expWrapped_length l 0, enumPh_expBare l 0 (wCount l)]

/-! ### Sorting the replacements by start descending -/

theorem expReps_start_ge (l : List Seg) :
    ∀ (pos i j : Nat) (x : Repl), x ∈ expReps l pos i j → pos ≤ x.start := by
  induction l with
  | nil =>
    intro pos i j x hx
    cases hx
  | cons sg r ih =>
    intro pos i j x hx
    cases sg with
    | txt s =>
      have := ih (pos + s.length) i j x hx
      omega
    | wrapped b =>
      rcases List.mem_cons.mp hx with h | h
      · rw [h]
      · have := ih (pos + wrappedLen b) (i + 1) j x h
        omega
    | bare b =>
      rcases List.mem_cons.mp hx with h | h
      · rw [h]
      · have := ih (pos + bareLen b) i (j + 1) x h
        omega

theorem expReps_pairwise (l : List Seg) :
    ∀ (pos i j : Nat), (expReps l pos i j).Pairwise (fun a b => a.start < b.start) := by
  induction l with
  | nil =>
    intro pos i j
    exact List.Pairwise.nil
  | cons sg r ih =>
    intro pos i j
    cases sg with
    | txt s => exact ih (pos + s.length) i j
    | wrapped b =>
      refine List.Pairwise.cons ?_ (ih (pos + wrappedLen b) (i + 1) j)
      intro x hx
      have := expReps_start_ge r (pos + wrappedLen b) (i + 1) j x hx
      unfold wrappedLen at this
      dsimp only
      omega
    | bare b =>
      refine List.Pairwise.cons ?_ (ih (pos + bareLen b) i (j + 1))
      intro x hx
      have := expReps_start_ge r (pos + bareLen b) i (j + 1) x hx
      unfold bareLen at this
      dsimp only
      omega

theorem expReps_perm (l : List Seg) :
    ∀ (pos i j : Nat), (expRepsW l pos i ++ expRepsB l pos j).Perm (expReps l pos i j) := by
  induction l with
  | nil =>
    intro pos i j
    exact List.Perm.nil
  | cons sg r ih =>
    intro pos i j
    cases sg with
    | txt s => exact ih (pos + s.length) i j
    | wrapped b =>
      rw [show expRepsW (.wrapped b :: r) pos i =
          ⟨pos, wrappedLen b, phStr i⟩ :: expRepsW r (pos + wrappedLen b) (i + 1) from rfl,
        List.cons_append]
      exact List.Perm.cons _ (ih (pos + wrappedLen b) (i + 1) j)
    | bare b =>
      rw [show expRepsB (.bare b :: r) pos j =
          ⟨pos, bareLen b, phStr j⟩ :: expRepsB r (pos + bareLen b) (j + 1) from rfl]
      exact List.Perm.trans List.perm_middle
        (List.Perm.cons _ (ih (pos + bareLen b) i (j + 1)))

theorem sort_family (l : List Seg) (w : Nat) :
    (expRepsW l 0 0 ++ expRepsB l 0 w).insertionSort (fun a b => b.start ≤ a.start) =
      (expReps l 0 0 w).reverse := by
  haveI hT : IsTotal Repl (fun a b => b.start ≤ a.start) :=
    ⟨fun a b => Nat.le_total b.start a.start⟩
  haveI hTr : IsTrans Repl (fun a b => b.start ≤ a.start) :=
    ⟨fun a b c h1 h2 => Nat.le_trans h2 h1⟩
  haveI hA : IsAntisymm Repl (fun a b : Repl => b.start < a.start) :=
    ⟨fun a b h1 h2 => absurd h1 (by omega)⟩
  have hperm : ((expRepsW l 0 0 ++ expRepsB l 0 w).insertionSort
      (fun a b => b.start ≤ a.start)).Perm (expReps l 0 0 w) :=
    (List.perm_insertionSort _ _).trans (expReps_perm l 0 0 w)
  apply List.eq_of_perm_of_sorted (r := fun a b : Repl => b.start < a.start)
  · exact hperm.trans (List.reverse_perm _).symm
  · have hs : List.Sorted (fun a b => b.start ≤ a.start)
        ((expRepsW l 0 0 ++ expRepsB l 0 w).insertionSort (fun a b => b.start ≤ a.start)) :=
      List.sorted_insertionSort _ _
    have hne : ((expRepsW l 0 0 ++ expRepsB l 0 w).insertionSort
        (fun a b => b.start ≤ a.start)).Pairwise (fun a b : Repl => a.start ≠ b.start) := by
      refine (List.Perm.pairwise_iff ?_ hperm).mpr ?_
      · intro a b h
        exact Ne.symm h
      · exact (expReps_pairwise l 0 0 w).imp (fun h => Nat.ne_of_lt h)
    have hcomb := List.Pairwise.and hs hne
    exact hcomb.imp (fun h => by omega)
  · exact List.pairwise_reverse.mpr (expReps_pairwise l 0 0 w)

/-! ### The splice loop -/

/-- The HTML after every table is replaced by its placeholder. -/
def expSpliced : List Seg → Nat → Nat → Str
  | [], _, _ => []
  | .txt s :: r, i, j => s ++ expSpliced r i j
  | .wrapped _ :: r, i, j => phStr i ++ expSpliced r (i + 1) j
  | .bare _ :: r, i, j => phStr j ++ expSpliced r i (j + 1)

theorem foldr_splice_family (l : List Seg) :
    ∀ (pre : Str) (i j : Nat),
      (expReps l pre.length i j).foldr (fun r acc => spliceOne acc r) (pre ++ segsHtml l) =
        pre ++ expSpliced l i j := by
  induction l with
  | nil =>
    intro pre i j
    rfl
  | cons sg r ih =>
    intro pre i j
    cases sg with
    | txt s =>
      rw [show expReps (.txt s :: r) pre.length i j =
          expReps r (pre.length + s.length) i j from rfl,
        show pre ++ segsHtml (.txt s :: r) = (pre ++ s) ++ segsHtml r from by
          rw [show segsHtml (.txt s :: r) = s ++ segsHtml r from rfl, List.append_assoc],
        show pre.length + s.length = (pre ++ s).length from (List.length_append _ _).symm,
        ih (pre ++ s) i j, List.append_assoc]
      rfl
    | wrapped b =>
      rw [show expReps (.wrapped b :: r) pre.length i j =
          ⟨pre.length, wrappedLen b, phStr i⟩ ::
            expReps r (pre.length + wrappedLen b) (i + 1) j from rfl,
        List.foldr_cons,
        show pre ++ segsHtml (.wrapped b :: r) =
            (pre ++ segHtml (.wrapped b)) ++ segsHtml r from by
          rw [show segsHtml (.wrapped b :: r) = segHtml (.wrapped b) ++ segsHtml r from rfl,
            List.append_assoc],
        show pre.length + wrappedLen b = (pre ++ segHtml (.wrapped b)).length from by
          rw [List.length_append, segHtml_wrapped_length],
        ih (pre ++ segHtml (.wrapped b)) (i + 1) j]
      unfold spliceOne
      dsimp only
      rw [List.append_assoc pre (segHtml (.wrapped b)) (expSpliced r (i + 1) j)]
      have htake : (pre ++ (segHtml (.wrapped b) ++ expSpliced r (i + 1) j)).take pre.length =
          pre := List.take_left _ _
      have hdrop : (pre ++ (segHtml (.wrapped b) ++ expSpliced r (i + 1) j)).drop
          (pre.length + wrappedLen b) = expSpliced r (i + 1) j := by
        rw [show pre.length + wrappedLen b =
            pre.length + (segHtml (.wrapped b)).length from by rw [segHtml_wrapped_length],
          ← List.length_append, ← List.append_assoc, List.drop_left]
      rw [htake, hdrop, List.append_assoc]
      rfl
    | bare b =>
      rw [show expReps (.bare b :: r) pre.length i j =
          ⟨pre.length, bareLen b, phStr j⟩ ::
            expReps r (pre.length + bareLen b) i (j + 1) from rfl,
        List.foldr_cons,
        show pre ++ segsHtml (.bare b :: r) =
            (pre ++ segHtml (.bare b)) ++ segsHtml r from by
          rw [show segsHtml (.bare b :: r) = segHtml (.bare b) ++ segsHtml r from rfl,
            List.append_assoc],
        show pre.length + bareLen b = (pre ++ segHtml (.bare b)).length from by
          rw [List.length_append, segHtml_bare_length],
        ih (pre ++ segHtml (.bare b)) i (j + 1)]
      unfold spliceOne
      dsimp only
      rw [List.append_assoc pre (segHtml (.bare b)) (expSpliced r i (j + 1))]
      have htake : (pre ++ (segHtml (.bare b) ++ expSpliced r i (j + 1))).take pre.length =
          pre := List.take_left _ _
      have hdrop : (pre ++ (segHtml (.bare b) ++ expSpliced r i (j + 1))).drop
          (pre.length + bareLen b) = expSpliced r i (j + 1) := by
        rw [show pre.length + bareLen b =
            pre.length + (segHtml (.bare b)).length from by rw [segHtml_bare_length],
          ← List.length_append, ← List.append_assoc, List.drop_left]
      rw [htake, hdrop, List.append_assoc]
      rfl

theorem splicedOf_family (l : List Seg) (hok : SegsOk l) :
    splicedOf (segsHtml l) = expSpliced l 0 (wCount l) := by
  unfold splicedOf spliceAll
  rw [replsOf_family l hok, sort_family l (wCount l), List.foldl_reverse]
  have h := foldr_splice_family l [] 0 (wCount l)
  rw [List.nil_append, show List.length ([] : Str) = 0 from rfl] at h
  rw [List.nil_append] at h
  exact h

/-! ### The placeholder scanner and the decimal round trip -/

theorem natDigitsAux_digits (fuel : Nat) :
    ∀ (n : Nat) (c : Char), c ∈ natDigitsAux fuel n → ∃ d, d ≤ 9 ∧ c = digitChar d := by
  induction fuel with
  | zero =>
    intro n c hc
    cases hc
  | succ f ih =>
    intro n c hc
    cases n with
    | zero => cases hc
    | succ m =>
      rw [natDigitsAux] at hc
      rcases List.mem_cons.mp hc with h | h
      · exact ⟨(m + 1) % 10, by omega, h⟩
      · exact ih ((m + 1) / 10) c h

theorem natToStr_isDigit (k : Nat) : ∀ c ∈ natToStr k, c.isDigit = true := by
  intro c hc
  unfold natToStr at hc
  split at hc
  · simp at hc
    subst hc
    decide
  · rw [List.mem_reverse] at hc
    obtain ⟨d, hd, rfl⟩ := natDigitsAux_digits k k c hc
    interval_cases d <;> decide

theorem natToStr_ne_nil (n : Nat) : natToStr n ≠ [] := by
  unfold natToStr
  split
  · simp
  · rename_i h
    cases n with
    | zero => exact absurd rfl h
    | succ m =>
      rw [natDigitsAux]
      simp

theorem digitsToNat_aux (fuel : Nat) :
    ∀ (n a : Nat), n ≤ fuel →
      List.foldl (fun a c => a * 10 + (c.toNat - 48)) a (natDigitsAux fuel n).reverse =
        a * 10 ^ (natDigitsAux fuel n).length + n := by
  induction fuel with
  | zero =>
    intro n a hn
    have hn0 : n = 0 := by omega
    subst hn0
    rw [show natDigitsAux 0 0 = ([] : Str) from rfl]
    simp
  | succ f ih =>
    intro n a hn
    cases n with
    | zero =>
      rw [show natDigitsAux (f + 1) 0 = ([] : Str) from rfl]
      simp
    | succ m =>
      rw [natDigitsAux, List.reverse_cons, List.foldl_append,
        ih ((m + 1) / 10) a (by
          have hlt : (m + 1) / 10 < m + 1 := Nat.div_lt_self (Nat.succ_pos m) (by omega)
          omega)]
      have hch : (digitChar ((m + 1) % 10)).toNat = 48 + (m + 1) % 10 := by
        unfold digitChar
        exact charOfNat_toNat _ (by omega)
      rw [List.foldl_cons, List.foldl_nil, hch, List.length_cons, pow_succ, ← mul_assoc]
      have hdm := Nat.div_add_mod (m + 1) 10
      have h48 : 48 + (m + 1) % 10 - 48 = (m + 1) % 10 := by omega
      rw [h48]
      generalize a * 10 ^ (natDigitsAux f ((m + 1) / 10)).length = Q
      omega

theorem digitsToNat_natToStr (n : Nat) : digitsToNat (natToStr n) = n := by
  unfold digitsToNat natToStr
  split
  · rename_i h
    subst h
    decide
  · rw [digitsToNat_aux n n 0 (Nat.le_refl n)]
    simp

theorem phStr_length (k : Nat) : (phStr k).length = 22 + (natToStr k).length := by
  simp [phStr, s2l]
  omega

theorem phAt_at (k : Nat) (x : Str) :
    phAt (phStr k ++ x) = some (22 + (natToStr k).length, k) := by
  unfold phAt
  rw [show phStr k ++ x =
      s2l "__TABLE_PLACEHOLDER_" ++ (natToStr k ++ ('_' :: ('_' :: x))) from by
    simp [phStr, s2l, List.append_assoc]]
  rw [matchLitEx_self_append]
  dsimp only
  obtain ⟨ht, hd⟩ := takeWhile_middle Char.isDigit (natToStr k) '_' ('_' :: x)
    (natToStr_isDigit k) (by decide)
  rw [ht, hd]
  rw [show (natToStr k).isEmpty = false from by
    cases hnn : natToStr k with
    | nil => exact absurd hnn (natToStr_ne_nil k)
    | cons a l => rfl]
  simp only [Bool.false_eq_true, if_false]
  rw [show ('_' :: ('_' :: x)) = s2l "__" ++ x from rfl, matchLitEx_self_append]
  dsimp only
  rw [digitsToNat_natToStr,
    show 20 + (natToStr k).length + 2 = 22 + (natToStr k).length from by omega]

theorem phAt_not_us (c : Char) (cs : Str) (h : c ≠ '_') : phAt (c :: cs) = none := by
  unfold phAt
  rw [show s2l "__TABLE_PLACEHOLDER_" = '_' :: s2l "_TABLE_PLACEHOLDER_" from rfl]
  rw [show matchLitEx ('_' :: s2l "_TABLE_PLACEHOLDER_") (c :: cs) = none from by
    show (if '_' = c then matchLitEx (s2l "_TABLE_PLACEHOLDER_") cs else none) = none
    rw [if_neg (fun he => h he.symm)]]

theorem findPh_shift (s : Str) (hs : ∀ c ∈ s, c ≠ '_') :
    ∀ (x : Str), findPh (s ++ x) = (findPh x).map (fun q => (q.1 + s.length, q.2)) := by
  induction s with
  | nil =>
    intro x
    cases h : findPh x with
    | none => simp [h]
    | some q => simp [h]
  | cons c cs ih =>
    intro x
    rw [List.cons_append, findPh, phAt_not_us c _ (hs c (List.mem_cons_self c cs)),
      ih (fun y hy => hs y (List.mem_cons_of_mem c hy)) x]
    cases h : findPh x with
    | none => rfl
    | some q =>
      obtain ⟨i, t, k⟩ := q
      simp [List.length_cons]
      omega

theorem findPh_at (k : Nat) (x : Str) :
    findPh (phStr k ++ x) = some (0, 22 + (natToStr k).length, k) := by
  have h1 : phStr k ++ x =
      '_' :: (s2l "_TABLE_PLACEHOLDER_" ++ (natToStr k ++ ('_' :: ('_' :: x)))) := by
    simp [phStr, s2l, List.append_assoc]
  rw [h1, findPh, ← h1, phAt_at k x]

theorem noUs_of_clean {s : Str} (hs : ∀ c ∈ s, cleanChar c = true) : ∀ c ∈ s, c ≠ '_' := by
  intro c hc
  have := hs c hc
  unfold cleanChar at this
  simp only [Bool.and_eq_true, decide_eq_true_eq] at this
  exact this.2

theorem execPhAux_us_shift (J : Str) (hJ : ∀ c ∈ J, c ≠ '_') :
    ∀ (x : Str) (fuel pos : Nat),
      execPhAux fuel (J ++ x) pos = execPhAux fuel x (pos + J.length) := by
  intro x fuel pos
  cases fuel with
  | zero => rfl
  | succ f =>
    rw [execPhAux, execPhAux, findPh_shift J hJ x]
    cases hq : findPh x with
    | none => rfl
    | some q =>
      obtain ⟨i, t, k⟩ := q
      dsimp only [Option.map]
      have hd : (J ++ x).drop (i + J.length + t) = x.drop (i + t) := by
        rw [show i + J.length + t = J.length + (i + t) from by omega, List.drop_append]
      have e1 : pos + (i + J.length) = pos + J.length + i := by omega
      rw [hd, e1]

theorem execPhAux_ph (k : Nat) (x : Str) (fuel pos : Nat) :
    execPhAux (fuel + 1) (phStr k ++ x) pos =
      (pos, 22 + (natToStr k).length, k) ::
        execPhAux fuel x (pos + (22 + (natToStr k).length)) := by
  rw [execPhAux, findPh_at k x]
  dsimp only
  rw [show (0 : Nat) + (22 + (natToStr k).length) = (phStr k).length from by
      rw [phStr_length]; omega,
    List.drop_left, Nat.add_zero]

/-- The expected placeholder-regex matches over the spliced HTML. -/
def expPhs : List Seg → Nat → Nat → Nat → List (Nat × Nat × Nat)
  | [], _, _, _ => []
  | .txt s :: r, pos, i, j => expPhs r (pos + s.length) i j
  | .wrapped _ :: r, pos, i, j =>
    (pos, 22 + (natToStr i).length, i) ::
      expPhs r (pos + (22 + (natToStr i).length)) (i + 1) j
  | .bare _ :: r, pos, i, j =>
    (pos, 22 + (natToStr j).length, j) ::
      expPhs r (pos + (22 + (natToStr j).length)) i (j + 1)

theorem execPhAux_spliced (l : List Seg) :
    ∀ (fuel pos i j : Nat), SegsOk l → tCount l ≤ fuel →
      execPhAux fuel (expSpliced l i j) pos = expPhs l pos i j := by
  induction l with
  | nil =>
    intro fuel pos i j _ _
    cases fuel <;> rfl
  | cons sg r ih =>
    intro fuel pos i j hok hf
    have hokr : SegsOk r := fun s hs => hok s (List.mem_cons_of_mem _ hs)
    cases sg with
    | txt s =>
      have hus : ∀ c ∈ s, c ≠ '_' := noUs_of_clean (hok _ (List.mem_cons_self _ _))
      rw [show expSpliced (.txt s :: r) i j = s ++ expSpliced r i j from rfl,
        execPhAux_us_shift s hus _ fuel pos, ih fuel (pos + s.length) i j hokr hf]
      rfl
    | wrapped b =>
      have hf' : tCount r + 1 ≤ fuel := hf
      obtain ⟨f, rfl⟩ : ∃ f, fuel = f + 1 := ⟨fuel - 1, by omega⟩
      rw [show expSpliced (.wrapped b :: r) i j = phStr i ++ expSpliced r (i + 1) j from rfl,
        execPhAux_ph i _ f pos, ih f _ (i + 1) j hokr (by omega)]
      rfl
    | bare b =>
      have hf' : tCount r + 1 ≤ fuel := hf
      obtain ⟨f, rfl⟩ : ∃ f, fuel = f + 1 := ⟨fuel - 1, by omega⟩
      rw [show expSpliced (.bare b :: r) i j = phStr j ++ expSpliced r i (j + 1) from rfl,
        execPhAux_ph j _ f pos, ih f _ i (j + 1) hokr (by omega)]
      rfl

theorem tCount_le_expSpliced (l : List Seg) :
    ∀ (i j : Nat), tCount l ≤ (expSpliced l i j).length := by
  induction l with
  | nil =>
    intro i j
    exact Nat.le_refl 0
  | cons sg r ih =>
    intro i j
    cases sg with
    | txt s =>
      have h : (expSpliced (.txt s :: r) i j).length =
          s.length + (expSpliced r i j).length := by
        rw [show expSpliced (.txt s :: r) i j = s ++ expSpliced r i j from rfl,
          List.length_append]
      have h2 : tCount (.txt s :: r) = tCount r := rfl
      have := ih i j
      omega
    | wrapped b =>
      have h : (expSpliced (.wrapped b :: r) i j).length =
          22 + (natToStr i).length + (expSpliced r (i + 1) j).length := by
        rw [show expSpliced (.wrapped b :: r) i j =
            phStr i ++ expSpliced r (i + 1) j from rfl, List.length_append, phStr_length]
      have h2 : tCount (.wrapped b :: r) = tCount r + 1 := rfl
      have := ih (i + 1) j
      omega
    | bare b =>
      have h : (expSpliced (.bare b :: r) i j).length =
          22 + (natToStr j).length + (expSpliced r i (j + 1)).length := by
        rw [show expSpliced (.bare b :: r) i j =
            phStr j ++ expSpliced r i (j + 1) from rfl, List.length_append, phStr_length]
      have h2 : tCount (.bare b :: r) = tCount r + 1 := rfl
      have := ih i (j + 1)
      omega

theorem expPhs_start_ge (l : List Seg) :
    ∀ (pos i j : Nat) (x : Nat × Nat × Nat), x ∈ expPhs l pos i j → pos ≤ x.1 := by
  induction l with
  | nil =>
    intro pos i j x hx
    cases hx
  | cons sg r ih =>
    intro pos i j x hx
    cases sg with
    | txt s =>
      have := ih (pos + s.length) i j x hx
      omega
    | wrapped b =>
      rcases List.mem_cons.mp hx with h | h
      · rw [h]
      · have := ih (pos + (22 + (natToStr i).length)) (i + 1) j x h
        omega
    | bare b =>
      rcases List.mem_cons.mp hx with h | h
      · rw [h]
      · have := ih (pos + (22 + (natToStr j).length)) i (j + 1) x h
        omega

theorem expPhs_pairwise (l : List Seg) :
    ∀ (pos i j : Nat), (expPhs l pos i j).Pairwise (fun a b => a.1 < b.1) := by
  induction l with
  | nil =>
    intro pos i j
    exact List.Pairwise.nil
  | cons sg r ih =>
    intro pos i j
    cases sg with
    | txt s => exact ih (pos + s.length) i j
    | wrapped b =>
      refine List.Pairwise.cons ?_ (ih (pos + (22 + (natToStr i).length)) (i + 1) j)
      intro x hx
      have := expPhs_start_ge r (pos + (22 + (natToStr i).length)) (i + 1) j x hx
      dsimp only
      omega
    | bare b =>
      refine List.Pairwise.cons ?_ (ih (pos + (22 + (natToStr j).length)) i (j + 1))
      intro x hx
      have := expPhs_start_ge r (pos + (22 + (natToStr j).length)) i (j + 1) x hx
      dsimp only
      omega

theorem sortPh (L : List (Nat × Nat × Nat)) (hL : L.Pairwise (fun a b => a.1 < b.1)) :
    L.insertionSort (fun a b => b.1 ≤ a.1) = L.reverse := by
  haveI hT : IsTotal (Nat × Nat × Nat) (fun a b => b.1 ≤ a.1) :=
    ⟨fun a b => Nat.le_total b.1 a.1⟩
  haveI hTr : IsTrans (Nat × Nat × Nat) (fun a b => b.1 ≤ a.1) :=
    ⟨fun a b c h1 h2 => Nat.le_trans h2 h1⟩
  haveI hA : IsAntisymm (Nat × Nat × Nat) (fun a b : Nat × Nat × Nat => b.1 < a.1) :=
    ⟨fun a b h1 h2 => absurd h1 (by omega)⟩
  have hperm : (L.insertionSort (fun a b => b.1 ≤ a.1)).Perm L :=
    List.perm_insertionSort _ _
  apply List.eq_of_perm_of_sorted (r := fun a b : Nat × Nat × Nat => b.1 < a.1)
  · exact hperm.trans (List.reverse_perm _).symm
  · have hs : List.Sorted (fun a b => b.1 ≤ a.1)
        (L.insertionSort (fun a b => b.1 ≤ a.1)) := List.sorted_insertionSort _ _
    have hne : (L.insertionSort (fun a b => b.1 ≤ a.1)).Pairwise
        (fun a b : Nat × Nat × Nat => a.1 ≠ b.1) := by
      refine (List.Perm.pairwise_iff ?_ hperm).mpr ?_
      · intro a b h
        exact Ne.symm h
      · exact hL.imp (fun h => Nat.ne_of_lt h)
    exact (List.Pairwise.and hs hne).imp (fun h => by omega)
  · exact List.pairwise_reverse.mpr hL

/-- The final output HTML: every table replaced by its marker line. -/
def expProcessed : List Seg → Nat → Nat → Str
  | [], _, _ => []
  | .txt s :: r, i, j => s ++ expProcessed r i j
  | .wrapped _ :: r, i, j => markerStr i ++ expProcessed r (i + 1) j
  | .bare _ :: r, i, j => markerStr j ++ expProcessed r i (j + 1)

theorem foldr_marker_family (l : List Seg) :
    ∀ (pre : Str) (i j : Nat),
      (expPhs l pre.length i j).foldr
        (fun p acc => acc.take p.1 ++ markerStr p.2.2 ++ acc.drop (p.1 + p.2.1))
        (pre ++ expSpliced l i j) = pre ++ expProcessed l i j := by
  induction l with
  | nil =>
    intro pre i j
    rfl
  | cons sg r ih =>
    intro pre i j
    cases sg with
    | txt s =>
      rw [show expPhs (.txt s :: r) pre.length i j =
          expPhs r (pre.length + s.length) i j from rfl,
        show pre ++ expSpliced (.txt s :: r) i j = (pre ++ s) ++ expSpliced r i j from by
          rw [show expSpliced (.txt s :: r) i j = s ++ expSpliced r i j from rfl,
            List.append_assoc],
        show pre.length + s.length = (pre ++ s).length from (List.length_append _ _).symm,
        ih (pre ++ s) i j, List.append_assoc]
      rfl
    | wrapped b =>
      rw [show expPhs (.wrapped b :: r) pre.length i j =
          (pre.length, 22 + (natToStr i).length, i) ::
            expPhs r (pre.length + (22 + (natToStr i).length)) (i + 1) j from rfl,
        List.foldr_cons,
        show pre ++ expSpliced (.wrapped b :: r) i j =
            (pre ++ phStr i) ++ expSpliced r (i + 1) j from by
          rw [show expSpliced (.wrapped b :: r) i j =
              phStr i ++ expSpliced r (i + 1) j from rfl, List.append_assoc],
        show pre.length + (22 + (natToStr i).length) = (pre ++ phStr i).length from by
          rw [List.length_append, phStr_length],
        ih (pre ++ phStr i) (i + 1) j]
      dsimp only
      rw [List.append_assoc pre (phStr i) (expProcessed r (i + 1) j)]
      have htake : (pre ++ (phStr i ++ expProcessed r (i + 1) j)).take pre.length = pre :=
        List.take_left _ _
      have hdrop : (pre ++ (phStr i ++ expProcessed r (i + 1) j)).drop
          (pre ++ phStr i).length = expProcessed r (i + 1) j := by
        rw [← List.append_assoc, List.drop_left]
      rw [htake, hdrop, List.append_assoc]
      rfl
    | bare b =>
      rw [show expPhs (.bare b :: r) pre.length i j =
          (pre.length, 22 + (natToStr j).length, j) ::
            expPhs r (pre.length + (22 + (natToStr j).length)) i (j + 1) from rfl,
        List.foldr_cons,
        show pre ++ expSpliced (.bare b :: r) i j =
            (pre ++ phStr j) ++ expSpliced r i (j + 1) from by
          rw [show expSpliced (.bare b :: r) i j =
              phStr j ++ expSpliced r i (j + 1) from rfl, List.append_assoc],
        show pre.length + (22 + (natToStr j).length) = (pre ++ phStr j).length from by
          rw [List.length_append, phStr_length],
        ih (pre ++ phStr j) i (j + 1)]
      dsimp only
      rw [List.append_assoc pre (phStr j) (expProcessed r i (j + 1))]
      have htake : (pre ++ (phStr j ++ expProcessed r i (j + 1))).take pre.length = pre :=
        List.take_left _ _
      have hdrop : (pre ++ (phStr j ++ expProcessed r i (j + 1))).drop
          (pre ++ phStr j).length = expProcessed r i (j + 1) := by
        rw [← List.append_assoc, List.drop_left]
      rw [htake, hdrop, List.append_assoc]
      rfl

theorem processedOf_family (l : List Seg) (hok : SegsOk l) :
    processedOf (segsHtml l) = expProcessed l 0 (wCount l) := by
  unfold processedOf execPh
  rw [splicedOf_family l hok,
    execPhAux_spliced l (expSpliced l 0 (wCount l)).length 0 0 (wCount l) hok
      (tCount_le_expSpliced l 0 (wCount l)),
    sortPh _ (expPhs_pairwise l 0 0 (wCount l)), List.foldl_reverse]
  have h := foldr_marker_family l [] 0 (wCount l)
  rw [List.nil_append, show List.length ([] : Str) = 0 from rfl] at h
  rw [List.nil_append] at h
  exact h

instance : DecidablePred SegOk := fun sg =>
  match sg with
  | .txt s => inferInstanceAs (Decidable (∀ c ∈ s, cleanChar c = true))
  | .wrapped b => inferInstanceAs (Decidable (∀ c ∈ b, cleanChar c = true))
  | .bare b => inferInstanceAs (Decidable (∀ c ∈ b, cleanChar c = true))

instance (l : List Seg) : Decidable (SegsOk l) :=
  inferInstanceAs (Decidable (∀ sg ∈ l, SegOk sg))

/-- **C7 counterexample**: a `table-container` div holding two tables.  The
wrapped-table regex swallows the whole div as one match, capturing only the
first table; the second table's start index lies inside the processed range,
so the plain pass skips it.  So the input contains the element
`<table>B</table>`, yet the output is a single marker line and a single
placeholder holding only `<table>A</table>` — the second table is dropped
without a marker, refuting "every table element is replaced by exactly one
marker and captured exactly once". -/
theorem c7_counterexample :
    hasSub (s2l "<table>B</table>")
      (s2l "<div class=\"table-container\"><table>A</table><table>B</table></div>") = true ∧
    extractAndReplaceTables
      (s2l "<div class=\"table-container\"><table>A</table><table>B</table></div>") =
      (s2l "\n__TABLE_MARKER_0__\n",
        [⟨s2l "__TABLE_PLACEHOLDER_0__", s2l "<table>A</table>"⟩]) ∧
    hasSub (s2l "__TABLE_MARKER_1__")
      (extractAndReplaceTables
        (s2l "<div class=\"table-container\"><table>A</table><table>B</table></div>")).1 =
      false := by
  refine ⟨by decide, by decide, by decide⟩

/-- **C7 (amended)**: for HTML that is a concatenation of tag- and
underscore-free text, single-table `table-container` divs, and bare tables,
`extractAndReplaceTables` replaces every table element by exactly one marker
line `\n__TABLE_MARKER_i__\n` and captures it exactly once: the indices run
over the wrapped tables first (in document order) and then the kept plain
tables (in document order), and `tablePlaceholders[i].tableHtml` is the
`<table>…</table>` element that marker `i` replaced.  (The unamended claim
is refuted by `c7_counterexample`: a container div holding two tables
yields one marker capturing only the first table, and the second table is
dropped without a marker.) -/
theorem c7_amended (l : List Seg) (hok : SegsOk l) :
    extractAndReplaceTables (segsHtml l) =
      (expProcessed l 0 (wCount l), expPhsW l 0 ++ expPhsB l (wCount l)) := by
  unfold extractAndReplaceTables
  rw [processedOf_family l hok, tablePlaceholdersOf_family l hok]

/-- A concrete segment list for the amended claim's witness: text, a bare
table, text, a wrapped table, text. -/
def c7Segs : List Seg :=
  [.txt (s2l "a"), .bare (s2l "B"), .txt (s2l "b"), .wrapped (s2l "W"), .txt (s2l "c")]

/-- Concrete instance of `c7_amended`: the mixed input
`a<table>B</table>b<div class="table-container"><table>W</table></div>c`
yields the wrapped table as placeholder 0 and the bare table as
placeholder 1, each replaced by its own marker line. -/
theorem c7_witness :
    SegsOk c7Segs ∧
      extractAndReplaceTables (segsHtml c7Segs) =
        (expProcessed c7Segs 0 (wCount c7Segs),
          expPhsW c7Segs 0 ++ expPhsB c7Segs (wCount c7Segs)) ∧
      extractAndReplaceTables (segsHtml c7Segs) =
        (s2l "a\n__TABLE_MARKER_1__\nb\n__TABLE_MARKER_0__\nc",
          [⟨s2l "__TABLE_PLACEHOLDER_0__", s2l "<table>W</table>"⟩,
            ⟨s2l "__TABLE_PLACEHOLDER_1__", s2l "<table>B</table>"⟩]) :=
  ⟨by decide, c7_amended c7Segs (by decide), by decide⟩

end GenisOps
